import Mathlib

/-!
# drone-webhook: a verification development

A shallow embedding of `main.go` and `webhook.go`.  The program is a single
`main` function; it is embedded as a function from the plugin parameters and a
`World` (the answers of the libraries the program calls: JSON encoder, template
renderer, URL parser, HTTP client) to the trace of the library calls it makes.

Strings are Go strings, byte slices are lists of byte values, a parsed URL is
represented by its string form (`uri.String()`).
-/

namespace DroneWebhook

/-! ## Data model (webhook.go, and the library types main.go touches) -/

/-- A byte slice. -/
abbrev Bytes := List Nat

/-- The struct `BasicAuth` of webhook.go, lines 13-16. -/
structure BasicAuth where
  Username : String
  Password : String
deriving DecidableEq, Repr

/-- The struct `Webhook` of webhook.go, lines 3-11.  `Headers` is a Go map: it is
given as the list of its entries in the order in which the `range` loop of
main.go line 96 visits them. -/
structure Webhook where
  Urls : List String
  Debug : Bool
  Auth : BasicAuth
  Headers : List (String × String)
  Method : String
  Template : String
  ContentType : String
deriving DecidableEq, Repr

/-- The library type `drone.System`: metadata that main.go only passes through. -/
structure System where
  fields : List (String × String)
deriving DecidableEq, Repr

/-- The library type `drone.Repo`: metadata that main.go only passes through. -/
structure Repo where
  fields : List (String × String)
deriving DecidableEq, Repr

/-- The library type `drone.Build`: metadata that main.go only passes through. -/
structure Build where
  fields : List (String × String)
deriving DecidableEq, Repr

/-- The anonymous struct `data` of main.go lines 46-50, with JSON field names
`system`, `repo`, `build`. -/
structure Data where
  System : System
  Repo : Repo
  Build : Build
deriving DecidableEq, Repr

/-- The view `drone.Payload` built at main.go lines 62-66. -/
structure Payload where
  Build : Build
  Repo : Repo
  System : System
deriving DecidableEq, Repr

/-- The four values registered with `plugin.Param` (main.go lines 20-29). -/
structure Params where
  sys : System
  repo : Repo
  build : Build
  vargs : Webhook
deriving DecidableEq, Repr

/-- A `bytes.Buffer`: the bytes written and the read offset. -/
structure Buffer where
  buf : Bytes
  off : Nat
deriving DecidableEq, Repr

/-- The zero value `var buf bytes.Buffer` (main.go line 55). -/
def Buffer.empty : Buffer := ⟨[], 0⟩

/-- What `Write` does to a `bytes.Buffer`: append. -/
def Buffer.Write (b : Buffer) (p : Bytes) : Buffer := ⟨b.buf ++ p, b.off⟩

/-- The method `buf.Bytes()`: the unread portion of the buffer. -/
def Buffer.Bytes (b : Buffer) : Bytes := b.buf.drop b.off

/-- A `bytes.Reader`: the slice it reads and its read cursor. -/
structure Reader where
  s : Bytes
  i : Nat
deriving DecidableEq, Repr

/-- The constructor `bytes.NewReader(b)`: a reader over `b` with its cursor at 0. -/
def NewReader (b : Bytes) : Reader := ⟨b, 0⟩

/-- The bytes a reader still delivers. -/
def Reader.unread (r : Reader) : Bytes := r.s.drop r.i

/-- An `http.Header`: a map from canonical names to value lists, kept as an
association list with at most one entry per name. -/
structure Header where
  entries : List (String × List String)
deriving DecidableEq, Repr

/-- An `http.Request` as far as main.go uses it. -/
structure Request where
  Method : String
  URL : String
  Header : Header
  Body : Reader
deriving DecidableEq, Repr

/-- A response body stream: the bytes it delivers before it ends, and the read
error it ends with (`none` for a clean end of stream). -/
structure Body where
  data : Bytes
  err : Option String
deriving DecidableEq, Repr

/-- An `http.Response` as far as main.go uses it. -/
structure Response where
  Status : String
  StatusCode : Int
  Body : Body
deriving DecidableEq, Repr

/-- The answers of the libraries main.go calls.  `clientDo i req` is the answer
of `http.DefaultClient.Do` to the request of loop iteration `i` (0-based). -/
structure World where
  jsonEncode : Data → Except String Bytes
  templateWrite : String → Payload → Except String Bytes
  urlParse : String → Except String String
  newRequestError : String → String → Option String
  clientDo : Nat → Request → Except String Response

/-! ## Library operations with a fixed meaning -/

/-- The bytes allowed in a header field name (the token characters of RFC 7230). -/
def validHeaderFieldByte (c : Char) : Bool :=
  let n := c.toNat
  n == 33 || (35 ≤ n && n ≤ 39) || n == 42 || n == 43 || n == 45 || n == 46 ||
    (48 ≤ n && n ≤ 57) || (65 ≤ n && n ≤ 90) || (94 ≤ n && n ≤ 122) || n == 124 || n == 126

/-- The canonicalisation loop of `textproto.CanonicalMIMEHeaderKey`: upper case
for the first letter and for a letter after a hyphen, lower case elsewhere. -/
def canonicalLoop : Bool → List Char → List Char
  | _, [] => []
  | upper, c :: cs =>
    let c1 := if upper then c.toUpper else c.toLower
    c1 :: canonicalLoop (c1 == '-') cs

/-- The function `textproto.CanonicalMIMEHeaderKey`: a name made of token bytes is
put in canonical case, any other name is returned unchanged. -/
def CanonicalMIMEHeaderKey (s : String) : String :=
  if s.data.all validHeaderFieldByte then String.mk (canonicalLoop true s.data) else s

/-- The map index `h[key]`. -/
def Header.values (h : Header) (key : String) : Option (List String) :=
  (h.entries.find? (fun e => e.1 == key)).map Prod.snd

/-- The method `Header.Set`: `h[CanonicalMIMEHeaderKey(key)] = []string{value}`. -/
def Header.Set (h : Header) (key value : String) : Header :=
  ⟨(CanonicalMIMEHeaderKey key, [value]) ::
    h.entries.filter (fun e => !(e.1 == CanonicalMIMEHeaderKey key))⟩

/-- The method `Header.Get`: the first value under the canonical form of `key`,
or the empty string. -/
def Header.Get (h : Header) (key : String) : String :=
  match h.values (CanonicalMIMEHeaderKey key) with
  | some (v :: _) => v
  | _ => ""

/-- The alphabet of `base64.StdEncoding`. -/
def base64Alphabet : List Char :=
  "ABCDEFGHIJKLMNOPQRSTUVWXYZabcdefghijklmnopqrstuvwxyz0123456789+/".data

/-- The character of a 6-bit value. -/
def base64Char (n : Nat) : Char := base64Alphabet.getD n 'A'

/-- The encoder `base64.StdEncoding.EncodeToString`, with `=` padding. -/
def base64Encode : List Nat → List Char
  | a :: b :: c :: rest =>
    base64Char (a / 4) :: base64Char (a % 4 * 16 + b / 16) ::
      base64Char (b % 16 * 4 + c / 64) :: base64Char (c % 64) :: base64Encode rest
  | [a, b] =>
    [base64Char (a / 4), base64Char (a % 4 * 16 + b / 16), base64Char (b % 16 * 4), '=']
  | [a] => [base64Char (a / 4), base64Char (a % 4 * 16), '=', '=']
  | [] => []

/-- The bytes of a Go string. -/
def stringBytes (s : String) : List Nat :=
  (s.data.flatMap String.utf8EncodeChar).map UInt8.toNat

/-- The helper `basicAuth` of net/http: base64 of `username:password`. -/
def basicAuth (username password : String) : String :=
  String.mk (base64Encode (stringBytes (username ++ ":" ++ password)))

/-- The method `Request.SetBasicAuth`: sets the `Authorization` header to
`Basic` followed by the encoded credentials. -/
def Request.SetBasicAuth (r : Request) (username password : String) : Request :=
  { r with Header := r.Header.Set "Authorization" ("Basic " ++ basicAuth username password) }

/-- The constructor `http.NewRequest`: fails when the method or the URL is
refused (as the world says), and an empty method means `GET`. -/
def NewRequest (w : World) (method url : String) (body : Reader) : Except String Request :=
  match w.newRequestError method url with
  | some err => .error err
  | none => .ok ⟨if method = "" then "GET" else method, url, ⟨[]⟩, body⟩

/-- The function `ioutil.ReadAll`: reads until an error or the end of the stream
and returns the data it read together with the error, if any. -/
def ReadAll (body : Body) : Bytes × Option String := (body.data, body.err)

/-- The constant `http.StatusBadRequest`. -/
def StatusBadRequest : Int := 400

/-- The builtin `len` on a Go string: its number of bytes. -/
def len (s : String) : Nat := (stringBytes s).length

/-! ## The trace of a run -/

/-- What the program prints: the arguments of its `fmt.Println` and
`fmt.Printf` calls, one constructor per format string. -/
inductive Output
  /-- The call `fmt.Println(err)` of line 33. -/
  | line (err : String)
  /-- The fatal diagnostics of lines 58, 68, 81, 90 and 111: the text before the
  error, and the error. -/
  | fatal (message err : String)
  /-- The diagnostic `Error reading http response body.` of line 124. -/
  | readError (err : String)
  /-- The `[debug]` record of line 129. -/
  | debug (index : Nat) (url method : String) (headers : Header) (requestBody : Bytes)
      (status : String) (responseBody : Bytes)
  /-- The `[info]` record of line 131. -/
  | info (index : Nat) (url status : String) (responseBody : Bytes)
deriving DecidableEq, Repr

/-- One library call of the program.  The index `i` is the loop variable of
line 77 (0-based). -/
inductive Event
  /-- The call `json.NewEncoder(&buf).Encode(&data)` of line 57. -/
  | jsonEncode (data : Data)
  /-- The call `template.Write` of line 62. -/
  | templateWrite (template : String) (payload : Payload)
  /-- The call `url.Parse(rawurl)` of line 79. -/
  | urlParse (i : Nat) (rawurl : String)
  /-- The call `http.NewRequest` of line 88. -/
  | newRequest (i : Nat) (method url : String) (body : Reader)
  /-- The call `req.Header.Set("Content-Type", ...)` of line 95. -/
  | setContentType (i : Nat) (value : String)
  /-- The call `req.Header.Set(key, value)` of line 97. -/
  | setHeader (i : Nat) (key value : String)
  /-- The call `req.SetBasicAuth` of line 103 or 105. -/
  | setBasicAuth (i : Nat) (username password : String)
  /-- The call `http.DefaultClient.Do(req)` of line 109. -/
  | clientDo (i : Nat) (req : Request)
  /-- The call `ioutil.ReadAll(resp.Body)` of line 120. -/
  | readAll (i : Nat)
  /-- A call of `fmt.Println` or `fmt.Printf`. -/
  | printf (out : Output)
  /-- The call `resp.Body.Close()` deferred at line 114, for the response of
  iteration `i`. -/
  | close (i : Nat)
  /-- The call `os.Exit(code)`. -/
  | exit (code : Nat)
deriving DecidableEq, Repr

/-! ## The program (main.go) -/

/-- Lines 37-43: the default method and content type. -/
def setDefaults (vargs : Webhook) : Webhook :=
  let vargs := if len vargs.Method = 0 then { vargs with Method := "POST" } else vargs
  if len vargs.ContentType = 0 then { vargs with ContentType := "application/json" } else vargs

/-- Lines 55-71: the payload buffer, with the calls made to fill it.  `none`
when the run was ended by `os.Exit(1)`. -/
def buildPayload (w : World) (p : Params) (vargs : Webhook) : List Event × Option Buffer :=
  let data : Data := ⟨p.sys, p.repo, p.build⟩
  if len vargs.Template = 0 then
    match w.jsonEncode data with
    | .error err =>
      ([.jsonEncode data, .printf (.fatal "Error encoding json payload." err), .exit 1], none)
    | .ok out => ([.jsonEncode data], some (Buffer.empty.Write out))
  else
    let view : Payload := ⟨p.build, p.repo, p.sys⟩
    match w.templateWrite vargs.Template view with
    | .error err =>
      ([.templateWrite vargs.Template view,
        .printf (.fatal "Error executing content template." err), .exit 1], none)
    | .ok out => ([.templateWrite vargs.Template view], some (Buffer.empty.Write out))

/-- Lines 95-98: the content type, then every custom header, each with
`Header.Set`. -/
def setHeaders (vargs : Webhook) (req : Request) : Request :=
  let h0 := req.Header.Set "Content-Type" vargs.ContentType
  { req with Header := vargs.Headers.foldl (fun h kv => h.Set kv.1 kv.2) h0 }

/-- The calls made by lines 95-98 in iteration `i`. -/
def headerEvents (vargs : Webhook) (i : Nat) : List Event :=
  .setContentType i vargs.ContentType :: vargs.Headers.map (fun kv => .setHeader i kv.1 kv.2)

/-- Lines 101-107: basic auth when a user name is given. -/
def setAuth (vargs : Webhook) (req : Request) : Request :=
  if len vargs.Auth.Username > 0 then
    if len vargs.Auth.Password > 0 then
      req.SetBasicAuth vargs.Auth.Username vargs.Auth.Password
    else
      req.SetBasicAuth vargs.Auth.Username ""
  else req

/-- The calls made by lines 101-107 in iteration `i`. -/
def authEvents (vargs : Webhook) (i : Nat) : List Event :=
  if len vargs.Auth.Username > 0 then
    if len vargs.Auth.Password > 0 then
      [.setBasicAuth i vargs.Auth.Username vargs.Auth.Password]
    else
      [.setBasicAuth i vargs.Auth.Username ""]
  else []

/-- Lines 116-133: what is read and printed for the response of iteration `i`. -/
def report (vargs : Webhook) (i : Nat) (req : Request) (b : Bytes) (resp : Response) :
    List Event :=
  if vargs.Debug || decide (resp.StatusCode ≥ StatusBadRequest) then
    let (body, err) := ReadAll resp.Body
    let failed : List Event :=
      match err with
      | some e => [.printf (.readError e)]
      | none => []
    let record : Output :=
      if vargs.Debug then
        .debug (i + 1) req.URL req.Method req.Header b resp.Status body
      else
        .info (i + 1) req.URL resp.Status body
    .readAll i :: failed ++ [.printf record]
  else []

/-- Lines 78-133: the body of the loop for index `i` and target `rawurl`.  The
result is the calls made, and whether the loop goes on: `false` when the body
ended the run with `os.Exit(1)`, `true` when it reached its end (and the
`Close` of its response was deferred at line 114). -/
def iteration (w : World) (vargs : Webhook) (buf : Buffer) (i : Nat) (rawurl : String) :
    List Event × Bool :=
  match w.urlParse rawurl with
  | .error err =>
    ([.urlParse i rawurl, .printf (.fatal "Error parsing hook url." err), .exit 1], false)
  | .ok uri =>
    let b := buf.Bytes
    let r := NewReader b
    match NewRequest w vargs.Method uri r with
    | .error err =>
      ([.urlParse i rawurl, .newRequest i vargs.Method uri r,
        .printf (.fatal "Error creating http request." err), .exit 1], false)
    | .ok req0 =>
      let req := setAuth vargs (setHeaders vargs req0)
      let built : List Event :=
        [.urlParse i rawurl, .newRequest i vargs.Method uri r] ++ headerEvents vargs i ++
          authEvents vargs i ++ [.clientDo i req]
      match w.clientDo i req with
      | .error err =>
        (built ++ [.printf (.fatal "Error executing http request." err), .exit 1], false)
      | .ok resp => (built ++ report vargs i req b resp, true)

/-- Lines 77-135: the loop over `vargs.Urls` from index `i` on, and the return
from `main`.  `deferred` is the stack of deferred `Close` calls (the responses
of the iterations done so far, the latest first): they run when `main`
returns, and do not run when `os.Exit` ends the process. -/
def mainLoop (w : World) (vargs : Webhook) (buf : Buffer) :
    Nat → List String → List Nat → List Event
  | _, [], deferred => deferred.map Event.close
  | i, rawurl :: rest, deferred =>
    match iteration w vargs buf i rawurl with
    | (events, false) => events
    | (events, true) => events ++ mainLoop w vargs buf (i + 1) rest (i :: deferred)

/-- The function `main`, from the result of `plugin.Parse` on: the trace of the
run. -/
def main (w : World) (parsed : Except String Params) : List Event :=
  match parsed with
  | .error err => [.printf (.line err), .exit 1]
  | .ok p =>
    let vargs := setDefaults p.vargs
    match buildPayload w p vargs with
    | (events, none) => events
    | (events, some buf) => events ++ mainLoop w vargs buf 0 vargs.Urls []

/-- The exit status of a run: the argument of `os.Exit` when the trace ends
with it, 0 when `main` returned. -/
def exitStatus (trace : List Event) : Nat :=
  match trace.getLast? with
  | some (.exit code) => code
  | _ => 0

/-! ## Vocabulary of the statements -/

/-- The payload of a run: the bytes of the buffer filled at lines 55-71, `none`
when the run ended there. -/
def payload (w : World) (p : Params) : Option Bytes :=
  (buildPayload w p (setDefaults p.vargs)).2.map Buffer.Bytes

/-- Target `rawurl`, processed at index `i`, meets no fatal error: its URL
parses, its request is constructed and the transport answers. -/
def Delivers (w : World) (vargs : Webhook) (buf : Buffer) (i : Nat) (rawurl : String) : Prop :=
  ∃ uri req0 resp,
    w.urlParse rawurl = .ok uri ∧
    NewRequest w vargs.Method uri (NewReader buf.Bytes) = .ok req0 ∧
    w.clientDo i (setAuth vargs (setHeaders vargs req0)) = .ok resp

/-- The requests executed in a trace, each with the loop index it was executed
at, in the order of execution. -/
def requestsExecuted (trace : List Event) : List (Nat × Request) :=
  trace.filterMap fun e =>
    match e with
    | .clientDo i req => some (i, req)
    | _ => none

/-- The number printed in a `[debug]` or `[info]` record. -/
def Output.index : Output → Option Nat
  | .debug n _ _ _ _ _ _ => some n
  | .info n _ _ _ => some n
  | _ => none

/-- The URL printed in a `[debug]` or `[info]` record. -/
def Output.url : Output → Option String
  | .debug _ u _ _ _ _ _ => some u
  | .info _ u _ _ => some u
  | _ => none

/-- The response body printed in a `[debug]` or `[info]` record. -/
def Output.responseBody : Output → Option Bytes
  | .debug _ _ _ _ _ _ b => some b
  | .info _ _ _ b => some b
  | _ => none

/-- The `[debug]` and `[info]` records of a trace that carry the number `n`, in
the order they were printed. -/
def recordsFor (n : Nat) (trace : List Event) : List Output :=
  trace.filterMap fun e =>
    match e with
    | .printf o => if o.index = some n then some o else none
    | _ => none

/-- The calls of consecutive loop bodies, from index `i` on, one per target. -/
def iterations (w : World) (vargs : Webhook) (buf : Buffer) : Nat → List String → List Event
  | _, [] => []
  | i, rawurl :: rest =>
    (iteration w vargs buf i rawurl).1 ++ iterations w vargs buf (i + 1) rest

/-- The value of the last entry of `es` whose canonical name is `key`. -/
def lastFor (key : String) : List (String × String) → Option String
  | [] => none
  | kv :: es =>
    match lastFor key es with
    | some v => some v
    | none => if CanonicalMIMEHeaderKey kv.1 = key then some kv.2 else none

/-- The record printed by lines 127-132. -/
def record (vargs : Webhook) (i : Nat) (req : Request) (b : Bytes) (resp : Response) : Output :=
  if vargs.Debug then
    .debug (i + 1) req.URL req.Method req.Header b resp.Status resp.Body.data
  else
    .info (i + 1) req.URL resp.Status resp.Body.data

/-- The loop index a call belongs to; `none` for the calls that build the
payload, for prints and for `os.Exit`. -/
def Event.index : Event → Option Nat
  | .urlParse i _ => some i
  | .newRequest i _ _ _ => some i
  | .setContentType i _ => some i
  | .setHeader i _ _ => some i
  | .setBasicAuth i _ _ => some i
  | .clientDo i _ => some i
  | .readAll i => some i
  | .close i => some i
  | _ => none

/-- The responses that are open after the calls of `trace`: obtained by a
successful `Do` and not closed; by loop index. -/
def openResponses (w : World) (trace : List Event) : List Nat :=
  (requestsExecuted trace).filterMap fun e =>
    match w.clientDo e.1 e.2 with
    | .ok _ => if Event.close e.1 ∈ trace then none else some e.1
    | .error _ => none

/-- The calls made before processing of the target at index `k` starts, that is
before the first `url.Parse` call of index `k`. -/
def beforeTarget (k : Nat) (trace : List Event) : List Event :=
  trace.takeWhile fun e =>
    match e with
    | .urlParse i _ => i != k
    | _ => true

/-! ## Example runs -/

/-- An example world: every URL but `:bad` parses, every request is constructed,
the first request is answered 404 with a body whose read breaks after two
bytes, the later ones 200 with a body that reads to its end. -/
def exampleWorld : World where
  jsonEncode := fun _ => .ok [123, 125, 10]
  templateWrite := fun t _ => .ok (stringBytes t)
  urlParse := fun raw => if raw = ":bad" then .error "missing protocol scheme" else .ok raw
  newRequestError := fun _ _ => none
  clientDo := fun i _ =>
    if i = 0 then .ok ⟨"404 Not Found", 404, ⟨[110, 111], some "unexpected EOF"⟩⟩
    else .ok ⟨"200 OK", 200, ⟨[111, 107], none⟩⟩

/-- The example world, except that no connection can be made. -/
def refusedWorld : World :=
  { exampleWorld with clientDo := fun _ _ => .error "connection refused" }

/-- A configuration with every default in use: two targets, a user name without
password, one custom header. -/
def exampleVargs : Webhook :=
  ⟨["http://a", "http://b"], false, ⟨"u", ""⟩, [("x-a", "1")], "", "", ""⟩

/-- Example parameters: empty metadata and `exampleVargs`. -/
def exampleParams : Params := ⟨⟨[]⟩, ⟨[]⟩, ⟨[]⟩, exampleVargs⟩

/-- The request the example run executes for its first target. -/
def exampleRequest : Request :=
  ⟨"POST", "http://a",
    ⟨[("Authorization", ["Basic dTo="]), ("X-A", ["1"]), ("Content-Type", ["application/json"])]⟩,
    ⟨[123, 125, 10], 0⟩⟩

/-- Example parameters with no user name, a password, and a custom
`Authorization` header. -/
def bearerParams : Params :=
  ⟨⟨[]⟩, ⟨[]⟩, ⟨[]⟩,
    ⟨["http://a"], false, ⟨"", "secret"⟩, [("Authorization", "Bearer t")], "", "", ""⟩⟩

/-- The request the run on `bearerParams` executes. -/
def bearerRequest : Request :=
  ⟨"POST", "http://a",
    ⟨[("Authorization", ["Bearer t"]), ("Content-Type", ["application/json"])]⟩,
    ⟨[123, 125, 10], 0⟩⟩

/-- Example parameters whose custom headers hold two names that differ only in
case, visited in the order given. -/
def clashParams (headers : List (String × String)) : Params :=
  ⟨⟨[]⟩, ⟨[]⟩, ⟨[]⟩, ⟨["http://a"], false, ⟨"", ""⟩, headers, "", "", ""⟩⟩

/-- The request the run on `clashParams headers` executes, given the value it
carries under `X-A`. -/
def clashRequest (value : String) : Request :=
  ⟨"POST", "http://a", ⟨[("X-A", [value]), ("Content-Type", ["application/json"])]⟩,
    ⟨[123, 125, 10], 0⟩⟩

/-- The example parameters with the first target only. -/
def singleParams : Params :=
  { exampleParams with vargs := { exampleVargs with Urls := ["http://a"] } }

/-- Example parameters with three targets, the last of which does not parse. -/
def badLastParams : Params :=
  { exampleParams with vargs := { exampleVargs with Urls := ["http://a", "http://b", ":bad"] } }

/-- Example parameters with two targets, the second of which does not parse. -/
def badSecondParams : Params :=
  { exampleParams with vargs := { exampleVargs with Urls := ["http://a", ":bad"] } }

/-! ## Basic facts -/

theorem len_eq_zero_iff (s : String) : len s = 0 ↔ s = "" := by
  cases s with
  | mk cs =>
    cases cs with
    | nil => simp [len, stringBytes]
    | cons c cs =>
      have hc : 0 < c.utf8Size := Char.utf8Size_pos c
      have h1 : String.mk (c :: cs) ≠ "" := by
        intro h
        have := congrArg String.data h
        simp at this
      simp [len, stringBytes, h1]
      omega

theorem len_pos_iff (s : String) : len s > 0 ↔ s ≠ "" := by
  rw [Ne, ← len_eq_zero_iff]; omega

theorem values_Set (h : Header) (k v key : String) :
    (h.Set k v).values key =
      if CanonicalMIMEHeaderKey k = key then some [v] else h.values key := by
  unfold Header.Set Header.values
  by_cases hk : CanonicalMIMEHeaderKey k = key
  · simp [hk]
  · simp only [hk, if_false]
    rw [List.find?_cons]
    have : ((CanonicalMIMEHeaderKey k, [v]).1 == key) = false := by simpa using hk
    rw [this]
    simp only
    rw [List.find?_filter]
    congr 2
    funext e
    by_cases he : e.1 = key
    · subst he
      have : ¬ (e.1 = CanonicalMIMEHeaderKey k) := fun h => hk h.symm
      simp [this]
    · simp [he]

theorem values_foldl_Set (es : List (String × String)) (h0 : Header) (key : String) :
    (es.foldl (fun h kv => h.Set kv.1 kv.2) h0).values key =
      match lastFor key es with
      | some v => some [v]
      | none => h0.values key := by
  induction es generalizing h0 with
  | nil => simp [lastFor]
  | cons kv es ih =>
    rw [List.foldl_cons, ih, lastFor]
    cases hl : lastFor key es with
    | some v => simp
    | none =>
      simp only [values_Set]
      by_cases hk : CanonicalMIMEHeaderKey kv.1 = key <;> simp [hk]

theorem lastFor_eq_none {key : String} {es : List (String × String)} :
    lastFor key es = none ↔ ∀ kv ∈ es, CanonicalMIMEHeaderKey kv.1 ≠ key := by
  induction es with
  | nil => simp [lastFor]
  | cons kv es ih =>
    rw [lastFor]
    cases hl : lastFor key es with
    | some v =>
      simp only [false_iff, reduceCtorEq]
      intro h
      have := ih.mpr (fun kv1 h1 => h kv1 (List.mem_cons_of_mem _ h1))
      rw [hl] at this
      cases this
    | none =>
      have ih1 := ih.mp hl
      by_cases hk : CanonicalMIMEHeaderKey kv.1 = key
      · simp [hk]
      · simp only [hk, if_false, true_iff]
        intro kv1 h1
        rcases List.mem_cons.mp h1 with h2 | h2
        · rw [h2]; exact hk
        · exact ih1 kv1 h2

theorem lastFor_eq_some {key v : String} {es : List (String × String)}
    (h : lastFor key es = some v) : ∃ kv ∈ es, CanonicalMIMEHeaderKey kv.1 = key ∧ kv.2 = v := by
  induction es with
  | nil => simp [lastFor] at h
  | cons kv es ih =>
    rw [lastFor] at h
    cases hl : lastFor key es with
    | some v1 =>
      rw [hl] at h
      simp only [Option.some.injEq] at h
      subst h
      obtain ⟨kv1, h1, h2⟩ := ih hl
      exact ⟨kv1, List.mem_cons_of_mem _ h1, h2⟩
    | none =>
      rw [hl] at h
      by_cases hk : CanonicalMIMEHeaderKey kv.1 = key
      · simp only [hk, if_true, Option.some.injEq] at h
        exact ⟨kv, List.mem_cons_self _ _, hk, h⟩
      · simp [hk] at h

theorem iteration_cases (w : World) (vargs : Webhook) (buf : Buffer) (i : Nat) (rawurl : String) :
    (∃ err, w.urlParse rawurl = .error err ∧
      iteration w vargs buf i rawurl =
        ([.urlParse i rawurl, .printf (.fatal "Error parsing hook url." err), .exit 1], false)) ∨
    (∃ uri err, w.urlParse rawurl = .ok uri ∧
      NewRequest w vargs.Method uri (NewReader buf.Bytes) = .error err ∧
      iteration w vargs buf i rawurl =
        ([.urlParse i rawurl, .newRequest i vargs.Method uri (NewReader buf.Bytes),
          .printf (.fatal "Error creating http request." err), .exit 1], false)) ∨
    (∃ uri req0 err, w.urlParse rawurl = .ok uri ∧
      NewRequest w vargs.Method uri (NewReader buf.Bytes) = .ok req0 ∧
      w.clientDo i (setAuth vargs (setHeaders vargs req0)) = .error err ∧
      iteration w vargs buf i rawurl =
        ([.urlParse i rawurl, .newRequest i vargs.Method uri (NewReader buf.Bytes)] ++
          headerEvents vargs i ++ authEvents vargs i ++
          [.clientDo i (setAuth vargs (setHeaders vargs req0))] ++
          [.printf (.fatal "Error executing http request." err), .exit 1], false)) ∨
    (∃ uri req0 resp, w.urlParse rawurl = .ok uri ∧
      NewRequest w vargs.Method uri (NewReader buf.Bytes) = .ok req0 ∧
      w.clientDo i (setAuth vargs (setHeaders vargs req0)) = .ok resp ∧
      iteration w vargs buf i rawurl =
        ([.urlParse i rawurl, .newRequest i vargs.Method uri (NewReader buf.Bytes)] ++
          headerEvents vargs i ++ authEvents vargs i ++
          [.clientDo i (setAuth vargs (setHeaders vargs req0))] ++
          report vargs i (setAuth vargs (setHeaders vargs req0)) buf.Bytes resp, true)) := by
  cases h1 : w.urlParse rawurl with
  | error err =>
    exact Or.inl ⟨err, rfl, by unfold iteration; simp only [h1]⟩
  | ok uri =>
    right
    cases h2 : NewRequest w vargs.Method uri (NewReader buf.Bytes) with
    | error err =>
      exact Or.inl ⟨uri, err, rfl, h2, by unfold iteration; simp only [h1, h2]⟩
    | ok req0 =>
      right
      cases h3 : w.clientDo i (setAuth vargs (setHeaders vargs req0)) with
      | error err =>
        exact Or.inl ⟨uri, req0, err, rfl, h2, h3, by unfold iteration; simp only [h1, h2, h3]⟩
      | ok resp =>
        exact Or.inr ⟨uri, req0, resp, rfl, h2, h3, by unfold iteration; simp only [h1, h2, h3]⟩

theorem iteration_snd_iff (w : World) (vargs : Webhook) (buf : Buffer) (i : Nat) (rawurl : String) :
    (iteration w vargs buf i rawurl).2 = true ↔ Delivers w vargs buf i rawurl := by
  constructor
  · intro h
    rcases iteration_cases w vargs buf i rawurl with ⟨err, _, h1⟩ | ⟨uri, err, _, _, h1⟩ |
      ⟨uri, req0, err, _, _, _, h1⟩ | ⟨uri, req0, resp, h1, h2, h3, _⟩
    · rw [h1] at h; cases h
    · rw [h1] at h; cases h
    · rw [h1] at h; cases h
    · exact ⟨uri, req0, resp, h1, h2, h3⟩
  · rintro ⟨uri, req0, resp, h1, h2, h3⟩
    unfold iteration
    simp only [h1, h2, h3]

theorem iteration_of_delivers {w : World} {vargs : Webhook} {buf : Buffer} {i : Nat}
    {rawurl uri : String} {req0 : Request} {resp : Response}
    (h1 : w.urlParse rawurl = .ok uri)
    (h2 : NewRequest w vargs.Method uri (NewReader buf.Bytes) = .ok req0)
    (h3 : w.clientDo i (setAuth vargs (setHeaders vargs req0)) = .ok resp) :
    iteration w vargs buf i rawurl =
      ([.urlParse i rawurl, .newRequest i vargs.Method uri (NewReader buf.Bytes)] ++
        headerEvents vargs i ++ authEvents vargs i ++
        [.clientDo i (setAuth vargs (setHeaders vargs req0))] ++
        report vargs i (setAuth vargs (setHeaders vargs req0)) buf.Bytes resp, true) := by
  unfold iteration
  simp only [h1, h2, h3]

theorem mainLoop_cons_true {w : World} {vargs : Webhook} {buf : Buffer} {i : Nat}
    {rawurl : String} (rest : List String) (d : List Nat)
    (h : (iteration w vargs buf i rawurl).2 = true) :
    mainLoop w vargs buf i (rawurl :: rest) d =
      (iteration w vargs buf i rawurl).1 ++ mainLoop w vargs buf (i + 1) rest (i :: d) := by
  rw [mainLoop]
  cases hit : iteration w vargs buf i rawurl with
  | mk evs c =>
    rw [hit] at h
    simp only at h
    subst h
    rfl

theorem mainLoop_cons_false {w : World} {vargs : Webhook} {buf : Buffer} {i : Nat}
    {rawurl : String} (rest : List String) (d : List Nat)
    (h : (iteration w vargs buf i rawurl).2 = false) :
    mainLoop w vargs buf i (rawurl :: rest) d = (iteration w vargs buf i rawurl).1 := by
  rw [mainLoop]
  cases hit : iteration w vargs buf i rawurl with
  | mk evs c =>
    rw [hit] at h
    simp only at h
    subst h
    rfl

theorem mainLoop_append (w : World) (vargs : Webhook) (buf : Buffer) (pre rest : List String) :
    ∀ (i : Nat) (d : List Nat),
      (∀ k raw, pre[k]? = some raw → Delivers w vargs buf (i + k) raw) →
      mainLoop w vargs buf i (pre ++ rest) d =
        iterations w vargs buf i pre ++
          mainLoop w vargs buf (i + pre.length) rest ((List.range' i pre.length).reverse ++ d) := by
  induction pre with
  | nil => intro i d _; simp [iterations]
  | cons raw pre ih =>
    intro i d h
    have h0 : (iteration w vargs buf i raw).2 = true :=
      (iteration_snd_iff w vargs buf i raw).mpr (by simpa using h 0 raw (by simp))
    have hrest : ∀ k r, pre[k]? = some r → Delivers w vargs buf (i + 1 + k) r := by
      intro k r hk
      have := h (k + 1) r (by simpa using hk)
      rwa [show i + (k + 1) = i + 1 + k by omega] at this
    rw [List.cons_append, mainLoop_cons_true _ _ h0, ih (i + 1) (i :: d) hrest, iterations]
    simp only [List.length_cons, List.range'_succ, List.reverse_cons, List.append_assoc,
      List.singleton_append]
    rw [show i + 1 + pre.length = i + (pre.length + 1) by omega]

theorem requestsExecuted_append (a b : List Event) :
    requestsExecuted (a ++ b) = requestsExecuted a ++ requestsExecuted b := by
  simp [requestsExecuted, List.filterMap_append]

theorem recordsFor_append (n : Nat) (a b : List Event) :
    recordsFor n (a ++ b) = recordsFor n a ++ recordsFor n b := by
  simp [recordsFor, List.filterMap_append]

theorem requestsExecuted_headerEvents (vargs : Webhook) (i : Nat) :
    requestsExecuted (headerEvents vargs i) = [] := by
  simp [requestsExecuted, headerEvents, List.filterMap_map, Function.comp_def]

theorem recordsFor_headerEvents (n : Nat) (vargs : Webhook) (i : Nat) :
    recordsFor n (headerEvents vargs i) = [] := by
  simp [recordsFor, headerEvents, List.filterMap_map, Function.comp_def]

theorem requestsExecuted_authEvents (vargs : Webhook) (i : Nat) :
    requestsExecuted (authEvents vargs i) = [] := by
  unfold authEvents
  split <;> [split; skip] <;> simp [requestsExecuted]

theorem recordsFor_authEvents (n : Nat) (vargs : Webhook) (i : Nat) :
    recordsFor n (authEvents vargs i) = [] := by
  unfold authEvents
  split <;> [split; skip] <;> simp [recordsFor]

theorem requestsExecuted_report (vargs : Webhook) (i : Nat) (req : Request) (b : Bytes)
    (resp : Response) : requestsExecuted (report vargs i req b resp) = [] := by
  unfold report
  split
  · simp only [ReadAll]
    cases resp.Body.err <;> simp [requestsExecuted]
  · rfl

theorem record_index (vargs : Webhook) (i : Nat) (req : Request) (b : Bytes) (resp : Response) :
    (record vargs i req b resp).index = some (i + 1) := by
  unfold record
  split <;> rfl

theorem recordsFor_report (n : Nat) (vargs : Webhook) (i : Nat) (req : Request) (b : Bytes)
    (resp : Response) :
    recordsFor n (report vargs i req b resp) =
      if n = i + 1 ∧ (vargs.Debug = true ∨ resp.StatusCode ≥ StatusBadRequest) then
        [record vargs i req b resp]
      else [] := by
  cases hd : vargs.Debug <;> cases he : resp.Body.err <;> by_cases hn : n = i + 1 <;>
    by_cases hs : resp.StatusCode ≥ StatusBadRequest <;>
    simp [report, recordsFor, record, ReadAll, hd, he, hn, hs, Output.index] <;> omega

theorem mem_report {vargs : Webhook} {i : Nat} {req : Request} {b : Bytes} {resp : Response}
    {e : Event} (h : e ∈ report vargs i req b resp) :
    e = .readAll i ∨ (∃ err, resp.Body.err = some err ∧ e = .printf (.readError err)) ∨
      e = .printf (record vargs i req b resp) := by
  by_cases hc : (vargs.Debug || decide (resp.StatusCode ≥ StatusBadRequest)) = true
  · rw [report, if_pos hc] at h
    simp only [ReadAll] at h
    cases he : resp.Body.err with
    | none =>
      rw [he] at h
      simp only [List.mem_append, List.mem_cons, List.mem_singleton, List.not_mem_nil,
        or_false] at h
      rcases h with h | h
      · exact Or.inl h
      · exact Or.inr (Or.inr h)
    | some err =>
      rw [he] at h
      simp only [List.mem_append, List.mem_cons, List.mem_singleton, List.not_mem_nil,
        or_false] at h
      rcases h with (h | h) | h
      · exact Or.inl h
      · exact Or.inr (Or.inl ⟨err, rfl, h⟩)
      · exact Or.inr (Or.inr h)
  · rw [report, if_neg hc] at h
    cases h

theorem mem_authEvents {vargs : Webhook} {i : Nat} {e : Event} (h : e ∈ authEvents vargs i) :
    vargs.Auth.Username ≠ "" ∧ e = .setBasicAuth i vargs.Auth.Username vargs.Auth.Password := by
  unfold authEvents at h
  split at h
  · rename_i hu
    have hu1 := (len_pos_iff _).mp hu
    split at h
    · exact ⟨hu1, by simpa using h⟩
    · rename_i hp
      have hp1 : vargs.Auth.Password = "" := (len_eq_zero_iff _).mp (by omega)
      rw [hp1]
      exact ⟨hu1, by simpa using h⟩
  · cases h

/-- What the calls of one loop body can be. -/
theorem mem_iteration {w : World} {vargs : Webhook} {buf : Buffer} {i : Nat} {rawurl : String}
    {e : Event} (h : e ∈ (iteration w vargs buf i rawurl).1) :
    e = .urlParse i rawurl ∨
    (∃ uri, w.urlParse rawurl = .ok uri ∧
      e = .newRequest i vargs.Method uri (NewReader buf.Bytes)) ∨
    e = .setContentType i vargs.ContentType ∨
    (∃ kv ∈ vargs.Headers, e = .setHeader i kv.1 kv.2) ∨
    e ∈ authEvents vargs i ∨
    (∃ uri req0, w.urlParse rawurl = .ok uri ∧
      NewRequest w vargs.Method uri (NewReader buf.Bytes) = .ok req0 ∧
      e = .clientDo i (setAuth vargs (setHeaders vargs req0))) ∨
    (∃ uri req0 resp, w.urlParse rawurl = .ok uri ∧
      NewRequest w vargs.Method uri (NewReader buf.Bytes) = .ok req0 ∧
      w.clientDo i (setAuth vargs (setHeaders vargs req0)) = .ok resp ∧
      e ∈ report vargs i (setAuth vargs (setHeaders vargs req0)) buf.Bytes resp) ∨
    (∃ message err, (iteration w vargs buf i rawurl).2 = false ∧
      e = .printf (.fatal message err)) ∨
    ((iteration w vargs buf i rawurl).2 = false ∧ e = .exit 1) := by
  rcases iteration_cases w vargs buf i rawurl with ⟨err, h1, hit⟩ | ⟨uri, err, h1, h2, hit⟩ |
    ⟨uri, req0, err, h1, h2, h3, hit⟩ | ⟨uri, req0, resp, h1, h2, h3, hit⟩
  · rw [hit] at h ⊢
    simp only [List.mem_cons, List.mem_singleton, List.not_mem_nil, or_false] at h
    rcases h with h | h | h
    · exact Or.inl h
    · exact Or.inr (Or.inr (Or.inr (Or.inr (Or.inr (Or.inr (Or.inr (Or.inl ⟨_, _, rfl, h⟩)))))))
    · exact Or.inr (Or.inr (Or.inr (Or.inr (Or.inr (Or.inr (Or.inr (Or.inr ⟨rfl, h⟩)))))))
  · rw [hit] at h ⊢
    simp only [List.mem_cons, List.mem_singleton, List.not_mem_nil, or_false] at h
    rcases h with h | h | h | h
    · exact Or.inl h
    · exact Or.inr (Or.inl ⟨uri, h1, h⟩)
    · exact Or.inr (Or.inr (Or.inr (Or.inr (Or.inr (Or.inr (Or.inr (Or.inl ⟨_, _, rfl, h⟩)))))))
    · exact Or.inr (Or.inr (Or.inr (Or.inr (Or.inr (Or.inr (Or.inr (Or.inr ⟨rfl, h⟩)))))))
  · rw [hit] at h ⊢
    simp only [List.mem_append, List.mem_cons, List.mem_singleton, List.not_mem_nil,
      or_false, headerEvents, List.mem_map] at h
    rcases h with (((((h | h) | (h | ⟨kv, hkv, h⟩)) | h) | h) | (h | h))
    · exact Or.inl h
    · exact Or.inr (Or.inl ⟨uri, h1, h⟩)
    · exact Or.inr (Or.inr (Or.inl h))
    · exact Or.inr (Or.inr (Or.inr (Or.inl ⟨kv, hkv, h.symm⟩)))
    · exact Or.inr (Or.inr (Or.inr (Or.inr (Or.inl h))))
    · exact Or.inr (Or.inr (Or.inr (Or.inr (Or.inr (Or.inl ⟨uri, req0, h1, h2, h⟩)))))
    · exact Or.inr (Or.inr (Or.inr (Or.inr (Or.inr (Or.inr (Or.inr (Or.inl ⟨_, _, rfl, h⟩)))))))
    · exact Or.inr (Or.inr (Or.inr (Or.inr (Or.inr (Or.inr (Or.inr (Or.inr ⟨rfl, h⟩)))))))
  · rw [hit] at h ⊢
    simp only [List.mem_append, List.mem_cons, List.mem_singleton, List.not_mem_nil,
      or_false, headerEvents, List.mem_map] at h
    rcases h with (((((h | h) | (h | ⟨kv, hkv, h⟩)) | h) | h) | h)
    · exact Or.inl h
    · exact Or.inr (Or.inl ⟨uri, h1, h⟩)
    · exact Or.inr (Or.inr (Or.inl h))
    · exact Or.inr (Or.inr (Or.inr (Or.inl ⟨kv, hkv, h.symm⟩)))
    · exact Or.inr (Or.inr (Or.inr (Or.inr (Or.inl h))))
    · exact Or.inr (Or.inr (Or.inr (Or.inr (Or.inr (Or.inl ⟨uri, req0, h1, h2, h⟩)))))
    · exact Or.inr (Or.inr (Or.inr (Or.inr (Or.inr (Or.inr (Or.inl
        ⟨uri, req0, resp, h1, h2, h3, h⟩))))))

/-- Every call of the loop is a `Close` run at the return of `main` or a call
of the body for some target, all of whose calls are in the trace. -/
theorem mem_mainLoop {w : World} {vargs : Webhook} {buf : Buffer} {e : Event}
    (urls : List String) :
    ∀ (i : Nat) (d : List Nat), e ∈ mainLoop w vargs buf i urls d →
      (∃ k, e = .close k) ∨
      ∃ k raw, urls[k]? = some raw ∧ e ∈ (iteration w vargs buf (i + k) raw).1 ∧
        ∀ e1 ∈ (iteration w vargs buf (i + k) raw).1, e1 ∈ mainLoop w vargs buf i urls d := by
  induction urls with
  | nil =>
    intro i d h
    rw [mainLoop] at h
    obtain ⟨k, _, hk⟩ := List.mem_map.mp h
    exact Or.inl ⟨k, hk.symm⟩
  | cons raw rest ih =>
    intro i d h
    cases hc : (iteration w vargs buf i raw).2 with
    | false =>
      rw [mainLoop_cons_false _ _ hc] at h ⊢
      exact Or.inr ⟨0, raw, by simp, by simpa using h, fun e1 h1 => by simpa using h1⟩
    | true =>
      rw [mainLoop_cons_true _ _ hc] at h ⊢
      rcases List.mem_append.mp h with h | h
      · exact Or.inr ⟨0, raw, by simp, by simpa using h,
          fun e1 h1 => List.mem_append_left _ (by simpa using h1)⟩
      · rcases ih (i + 1) (i :: d) h with h | ⟨k, r, hk, hm, hall⟩
        · exact Or.inl h
        · refine Or.inr ⟨k + 1, r, by simpa using hk, ?_, ?_⟩
          · rwa [show i + (k + 1) = i + 1 + k by omega]
          · intro e1 h1
            rw [show i + (k + 1) = i + 1 + k by omega] at h1
            exact List.mem_append_right _ (hall e1 h1)

theorem mem_buildPayload {w : World} {p : Params} {vargs : Webhook} {e : Event}
    (h : e ∈ (buildPayload w p vargs).1) :
    (vargs.Template = "" ∧ e = .jsonEncode ⟨p.sys, p.repo, p.build⟩) ∨
    (vargs.Template ≠ "" ∧ e = .templateWrite vargs.Template ⟨p.build, p.repo, p.sys⟩) ∨
    (∃ message err, e = .printf (.fatal message err)) ∨ e = .exit 1 := by
  unfold buildPayload at h
  simp only at h
  split at h
  · rename_i ht
    have ht1 := (len_eq_zero_iff _).mp ht
    split at h
    · simp only [List.mem_cons, List.mem_singleton, List.not_mem_nil, or_false] at h
      rcases h with h | h | h
      · exact Or.inl ⟨ht1, h⟩
      · exact Or.inr (Or.inr (Or.inl ⟨_, _, h⟩))
      · exact Or.inr (Or.inr (Or.inr h))
    · simp only [List.mem_singleton] at h
      exact Or.inl ⟨ht1, h⟩
  · rename_i ht
    have ht1 : vargs.Template ≠ "" := fun h0 => ht ((len_eq_zero_iff _).mpr h0)
    split at h
    · simp only [List.mem_cons, List.mem_singleton, List.not_mem_nil, or_false] at h
      rcases h with h | h | h
      · exact Or.inr (Or.inl ⟨ht1, h⟩)
      · exact Or.inr (Or.inr (Or.inl ⟨_, _, h⟩))
      · exact Or.inr (Or.inr (Or.inr h))
    · simp only [List.mem_singleton] at h
      exact Or.inr (Or.inl ⟨ht1, h⟩)

/-- The trace of a run after a successful `plugin.Parse`: the calls that build
the payload, followed by the loop when the payload was built. -/
theorem main_ok (w : World) (p : Params) :
    main w (.ok p) =
      (buildPayload w p (setDefaults p.vargs)).1 ++
        match (buildPayload w p (setDefaults p.vargs)).2 with
        | none => []
        | some buf => mainLoop w (setDefaults p.vargs) buf 0 (setDefaults p.vargs).Urls [] := by
  unfold main
  simp only
  cases hb : buildPayload w (p) (setDefaults p.vargs) with
  | mk evs ob =>
    cases ob with
    | none => simp
    | some buf => simp

theorem mem_main {w : World} {p : Params} {e : Event} (h : e ∈ main w (.ok p)) :
    e ∈ (buildPayload w p (setDefaults p.vargs)).1 ∨
    ∃ buf, (buildPayload w p (setDefaults p.vargs)).2 = some buf ∧
      e ∈ mainLoop w (setDefaults p.vargs) buf 0 (setDefaults p.vargs).Urls [] := by
  rw [main_ok] at h
  rcases List.mem_append.mp h with h | h
  · exact Or.inl h
  · right
    cases hb : (buildPayload w p (setDefaults p.vargs)).2 with
    | none => rw [hb] at h; cases h
    | some buf => rw [hb] at h; exact ⟨buf, rfl, h⟩

/-- A call made inside the loop of a run belongs to the body of some target,
all of whose calls are in the trace. -/
theorem mem_main_iteration {w : World} {p : Params} {e : Event} (h : e ∈ main w (.ok p))
    (hp : e ∉ (buildPayload w p (setDefaults p.vargs)).1) (hc : ∀ k, e ≠ .close k) :
    ∃ buf k raw, (buildPayload w p (setDefaults p.vargs)).2 = some buf ∧
      (setDefaults p.vargs).Urls[k]? = some raw ∧
      e ∈ (iteration w (setDefaults p.vargs) buf k raw).1 ∧
      ∀ e1 ∈ (iteration w (setDefaults p.vargs) buf k raw).1, e1 ∈ main w (.ok p) := by
  rcases mem_main h with h | ⟨buf, hb, h⟩
  · exact absurd h hp
  · rcases mem_mainLoop _ 0 [] h with ⟨k, hk⟩ | ⟨k, raw, hk, hm, hall⟩
    · exact absurd hk (hc k)
    · refine ⟨buf, k, raw, hb, hk, by simpa using hm, ?_⟩
      intro e1 h1
      rw [main_ok, hb]
      exact List.mem_append_right _ (hall e1 (by simpa using h1))

theorem setDefaults_Method (v : Webhook) :
    (setDefaults v).Method = if v.Method = "" then "POST" else v.Method := by
  unfold setDefaults
  by_cases hm : v.Method = "" <;> by_cases hc : v.ContentType = "" <;>
    simp [len_eq_zero_iff, hm, hc]

theorem setDefaults_ContentType (v : Webhook) :
    (setDefaults v).ContentType =
      if v.ContentType = "" then "application/json" else v.ContentType := by
  unfold setDefaults
  by_cases hm : v.Method = "" <;> by_cases hc : v.ContentType = "" <;>
    simp [len_eq_zero_iff, hm, hc]

theorem setDefaults_rest (v : Webhook) :
    (setDefaults v).Urls = v.Urls ∧ (setDefaults v).Debug = v.Debug ∧
      (setDefaults v).Auth = v.Auth ∧ (setDefaults v).Headers = v.Headers ∧
      (setDefaults v).Template = v.Template := by
  unfold setDefaults
  by_cases hm : v.Method = "" <;> by_cases hc : v.ContentType = "" <;>
    simp [len_eq_zero_iff, hm, hc]

theorem setDefaults_Method_ne (v : Webhook) : (setDefaults v).Method ≠ "" := by
  rw [setDefaults_Method]
  by_cases hm : v.Method = ""
  · rw [if_pos hm]; decide
  · rw [if_neg hm]; exact hm

theorem NewRequest_ok {w : World} {method url : String} {body : Reader} {req0 : Request}
    (h : NewRequest w method url body = .ok req0) :
    req0 = ⟨if method = "" then "GET" else method, url, ⟨[]⟩, body⟩ := by
  unfold NewRequest at h
  split at h
  · cases h
  · injection h with h; exact h.symm

theorem setHeaders_fields (vargs : Webhook) (req : Request) :
    (setHeaders vargs req).Method = req.Method ∧ (setHeaders vargs req).URL = req.URL ∧
      (setHeaders vargs req).Body = req.Body := ⟨rfl, rfl, rfl⟩

theorem setAuth_fields (vargs : Webhook) (req : Request) :
    (setAuth vargs req).Method = req.Method ∧ (setAuth vargs req).URL = req.URL ∧
      (setAuth vargs req).Body = req.Body := by
  unfold setAuth
  split <;> [split; skip] <;> exact ⟨rfl, rfl, rfl⟩

theorem setAuth_of_ne {vargs : Webhook} (req : Request) (h : vargs.Auth.Username ≠ "") :
    setAuth vargs req = req.SetBasicAuth vargs.Auth.Username vargs.Auth.Password := by
  unfold setAuth
  rw [if_pos ((len_pos_iff _).mpr h)]
  split
  · rfl
  · rename_i hp
    have hp1 : vargs.Auth.Password = "" := (len_eq_zero_iff _).mp (by omega)
    rw [hp1]

theorem setAuth_of_eq {vargs : Webhook} (req : Request) (h : vargs.Auth.Username = "") :
    setAuth vargs req = req := by
  unfold setAuth
  have : ¬ len vargs.Auth.Username > 0 := by
    have := (len_eq_zero_iff _).mpr h
    omega
  rw [if_neg this]

theorem setHeaders_values (vargs : Webhook) (req : Request) (key : String) :
    (setHeaders vargs req).Header.values key =
      match lastFor key vargs.Headers with
      | some v => some [v]
      | none => if "Content-Type" = key then some [vargs.ContentType] else req.Header.values key := by
  unfold setHeaders
  simp only
  rw [values_foldl_Set]
  cases lastFor key vargs.Headers with
  | some v => rfl
  | none =>
    simp only
    rw [values_Set]
    have : CanonicalMIMEHeaderKey "Content-Type" = "Content-Type" := by decide
    rw [this]

/-- A request found in the trace of a run is the one the loop body built. -/
theorem clientDo_mem_main {w : World} {p : Params} {i : Nat} {req : Request}
    (h : Event.clientDo i req ∈ main w (.ok p)) :
    ∃ buf raw uri req0, (buildPayload w p (setDefaults p.vargs)).2 = some buf ∧
      (setDefaults p.vargs).Urls[i]? = some raw ∧
      w.urlParse raw = .ok uri ∧
      NewRequest w (setDefaults p.vargs).Method uri (NewReader buf.Bytes) = .ok req0 ∧
      req = setAuth (setDefaults p.vargs) (setHeaders (setDefaults p.vargs) req0) ∧
      ∀ e1 ∈ (iteration w (setDefaults p.vargs) buf i raw).1, e1 ∈ main w (.ok p) := by
  have hp : Event.clientDo i req ∉ (buildPayload w p (setDefaults p.vargs)).1 := by
    intro hm
    rcases mem_buildPayload hm with ⟨_, h⟩ | ⟨_, h⟩ | ⟨_, _, h⟩ | h <;> cases h
  obtain ⟨buf, k, raw, hb, hk, hm, hall⟩ := mem_main_iteration h hp (fun k hk => by cases hk)
  rcases mem_iteration hm with h | ⟨_, _, h⟩ | h | ⟨_, _, h⟩ | h | ⟨uri, req0, h1, h2, h⟩ |
    ⟨_, _, _, _, _, _, h⟩ | ⟨_, _, _, h⟩ | ⟨_, h⟩
  · cases h
  · cases h
  · cases h
  · cases h
  · cases (mem_authEvents h).2
  · simp only [Event.clientDo.injEq] at h
    obtain ⟨hi, hr⟩ := h
    subst hi
    exact ⟨buf, raw, uri, req0, hb, hk, h1, h2, hr, hall⟩
  · rcases mem_report h with h | ⟨_, _, h⟩ | h <;> cases h
  · cases h
  · cases h

/-! ## C4: defaulting -/

/-- C4 (defaulting).  In every run, every request that is constructed and every
request that is executed carries the method `POST` when the configured method
is empty and the configured method otherwise, and the value passed to
`Header.Set("Content-Type", ...)` at line 95 is `application/json` when the
configured content type is empty and the configured content type otherwise.
The two values do not depend on the target: the defaults are set once, before
the loop, and every executed request had its content type set that way. -/
theorem defaulting_applies_to_every_target (w : World) (p : Params) (e : Event)
    (h : e ∈ main w (.ok p)) :
    (∀ i m u r, e = .newRequest i m u r →
      m = if p.vargs.Method = "" then "POST" else p.vargs.Method) ∧
    (∀ i req, e = .clientDo i req →
      req.Method = (if p.vargs.Method = "" then "POST" else p.vargs.Method) ∧
      Event.setContentType i
        (if p.vargs.ContentType = "" then "application/json" else p.vargs.ContentType) ∈
          main w (.ok p)) ∧
    (∀ i v, e = .setContentType i v →
      v = if p.vargs.ContentType = "" then "application/json" else p.vargs.ContentType) := by
  refine ⟨?_, ?_, ?_⟩
  · intro i m u r he
    subst he
    have hp : Event.newRequest i m u r ∉ (buildPayload w p (setDefaults p.vargs)).1 := by
      intro hm
      rcases mem_buildPayload hm with ⟨_, h⟩ | ⟨_, h⟩ | ⟨_, _, h⟩ | h <;> cases h
    obtain ⟨buf, k, raw, _, _, hm, _⟩ := mem_main_iteration h hp (fun k hk => by cases hk)
    rcases mem_iteration hm with h | ⟨_, _, h⟩ | h | ⟨_, _, h⟩ | h | ⟨_, _, _, _, h⟩ |
      ⟨_, _, _, _, _, _, h⟩ | ⟨_, _, _, h⟩ | ⟨_, h⟩
    · cases h
    · simp only [Event.newRequest.injEq] at h
      rw [h.2.1, setDefaults_Method]
    · cases h
    · cases h
    · cases (mem_authEvents h).2
    · cases h
    · rcases mem_report h with h | ⟨_, _, h⟩ | h <;> cases h
    · cases h
    · cases h
  · intro i req he
    subst he
    obtain ⟨buf, raw, uri, req0, _, _, h1, h2, hr, hall⟩ := clientDo_mem_main h
    constructor
    · rw [hr, (setAuth_fields _ _).1, (setHeaders_fields _ _).1, NewRequest_ok h2]
      simp only [setDefaults_Method_ne, if_false]
      exact setDefaults_Method _
    · apply hall
      rw [← setDefaults_ContentType]
      rcases iteration_cases w (setDefaults p.vargs) buf i raw with ⟨err, h1', _⟩ |
        ⟨uri', err, h1', h2', _⟩ | ⟨uri', req0', err, _, _, _, hit⟩ | ⟨uri', req0', resp, _, _, _, hit⟩
      · rw [h1] at h1'; cases h1'
      · rw [h1] at h1'; injection h1' with h1'; subst h1'
        rw [h2] at h2'; cases h2'
      · rw [hit]; simp [headerEvents]
      · rw [hit]; simp [headerEvents]
  · intro i v he
    subst he
    have hp : Event.setContentType i v ∉ (buildPayload w p (setDefaults p.vargs)).1 := by
      intro hm
      rcases mem_buildPayload hm with ⟨_, h⟩ | ⟨_, h⟩ | ⟨_, _, h⟩ | h <;> cases h
    obtain ⟨buf, k, raw, _, _, hm, _⟩ := mem_main_iteration h hp (fun k hk => by cases hk)
    rcases mem_iteration hm with h | ⟨_, _, h⟩ | h | ⟨_, _, h⟩ | h | ⟨_, _, _, _, h⟩ |
      ⟨_, _, _, _, _, _, h⟩ | ⟨_, _, _, h⟩ | ⟨_, h⟩
    · cases h
    · cases h
    · simp only [Event.setContentType.injEq] at h
      rw [h.2, setDefaults_ContentType]
    · cases h
    · cases (mem_authEvents h).2
    · cases h
    · rcases mem_report h with h | ⟨_, _, h⟩ | h <;> cases h
    · cases h
    · cases h

/-- C4, on the example run: the configured method and content type are empty,
the first request is a `POST` and its content type was set to
`application/json`. -/
theorem defaulting_applies_to_every_target_witness :
    exampleRequest.Method = "POST" ∧
    Event.setContentType 0 "application/json" ∈ main exampleWorld (.ok exampleParams) :=
  ((defaulting_applies_to_every_target exampleWorld exampleParams
    (.clientDo 0 exampleRequest) (by decide)).2.1 0 exampleRequest rfl)

/-! ## C2: the auth rule -/

/-- C2 (auth rule), as amended.  For every request executed in a run: if the
user name is non-empty, the `Authorization` header of the request is `Basic`
followed by the base64 form of `username:password`, also when the password is
empty; if the user name is empty, `SetBasicAuth` is never called, whatever the
password, and the `Authorization` header of the request is the one the custom
headers set: the value of the last custom header canonically named
`Authorization`, and absent when there is none. -/
theorem auth_rule (w : World) (p : Params) (i : Nat) (req : Request)
    (h : Event.clientDo i req ∈ main w (.ok p)) :
    (p.vargs.Auth.Username ≠ "" →
      req.Header.values "Authorization" =
        some ["Basic " ++ basicAuth p.vargs.Auth.Username p.vargs.Auth.Password]) ∧
    (p.vargs.Auth.Username = "" →
      (∀ k u pw, Event.setBasicAuth k u pw ∉ main w (.ok p)) ∧
      req.Header.values "Authorization" =
        (lastFor "Authorization" p.vargs.Headers).map (fun v => [v]) ∧
      ((∀ kv ∈ p.vargs.Headers, CanonicalMIMEHeaderKey kv.1 ≠ "Authorization") →
        req.Header.values "Authorization" = none)) := by
  obtain ⟨buf, raw, uri, req0, _, _, h1, h2, hr, hall⟩ := clientDo_mem_main h
  have hauth : (setDefaults p.vargs).Auth = p.vargs.Auth := (setDefaults_rest _).2.2.1
  have hhead : (setDefaults p.vargs).Headers = p.vargs.Headers := (setDefaults_rest _).2.2.2.1
  constructor
  · intro hu
    have hu1 : (setDefaults p.vargs).Auth.Username ≠ "" := by rw [hauth]; exact hu
    rw [hr, setAuth_of_ne _ hu1, hauth]
    unfold Request.SetBasicAuth
    simp only
    rw [values_Set]
    have : CanonicalMIMEHeaderKey "Authorization" = "Authorization" := by decide
    rw [if_pos this]
  · intro hu
    have hu1 : (setDefaults p.vargs).Auth.Username = "" := by rw [hauth]; exact hu
    have hval : req.Header.values "Authorization" =
        (lastFor "Authorization" p.vargs.Headers).map (fun v => [v]) := by
      rw [hr, setAuth_of_eq _ hu1, setHeaders_values, hhead, NewRequest_ok h2]
      cases lastFor "Authorization" p.vargs.Headers with
      | some v => rfl
      | none =>
        have : ¬ ("Content-Type" = "Authorization") := by decide
        simp only [this, if_false, Option.map_none']
        rfl
    refine ⟨?_, hval, ?_⟩
    · intro k u pw hm
      have hp : Event.setBasicAuth k u pw ∉ (buildPayload w p (setDefaults p.vargs)).1 := by
        intro hm
        rcases mem_buildPayload hm with ⟨_, h⟩ | ⟨_, h⟩ | ⟨_, _, h⟩ | h <;> cases h
      obtain ⟨buf, k1, raw, _, _, hm1, _⟩ := mem_main_iteration hm hp (fun k hk => by cases hk)
      rcases mem_iteration hm1 with h | ⟨_, _, h⟩ | h | ⟨_, _, h⟩ | h | ⟨_, _, _, _, h⟩ |
        ⟨_, _, _, _, _, _, h⟩ | ⟨_, _, _, h⟩ | ⟨_, h⟩
      · cases h
      · cases h
      · cases h
      · cases h
      · exact (mem_authEvents h).1 hu1
      · cases h
      · rcases mem_report h with h | ⟨_, _, h⟩ | h <;> cases h
      · cases h
      · cases h
    · intro hno
      rw [hval, lastFor_eq_none.mpr hno]
      rfl

/-- C2, on the example run: the user name is `u` and the password is empty, and
the first request carries `Basic dTo=`, the base64 form of `u:`. -/
theorem auth_rule_witness :
    exampleRequest.Header.values "Authorization" = some ["Basic dTo="] :=
  (auth_rule exampleWorld exampleParams 0 exampleRequest (by decide)).1 (by decide)

/-- C2 as stated fails: with an empty user name and the custom header
`Authorization: Bearer t`, the request that is executed carries an
`Authorization` header. -/
theorem auth_rule_counterexample :
    bearerParams.vargs.Auth.Username = "" ∧
    Event.clientDo 0 bearerRequest ∈ main exampleWorld (.ok bearerParams) ∧
    bearerRequest.Header.values "Authorization" = some ["Bearer t"] ∧
    bearerRequest.Header.Get "Authorization" ≠ "" := by
  decide

/-! ## C3: header precedence -/

/-- C3 (header precedence), as amended.  Every request executed in a run is
`setAuth` applied to `setHeaders` applied to a request with no header, and the
header set before auth is applied is as follows, names being compared in their
canonical form (`CanonicalMIMEHeaderKey`, which ignores case): an entry of the
custom headers whose canonical name no other entry shares is carried under
that name with its value; when some custom header is canonically named
`Content-Type`, the content type is the value of such a custom header;
otherwise it is the configured (defaulted) content type; and there is no
header besides `Content-Type` and the custom ones. -/
theorem header_precedence (w : World) (p : Params) (i : Nat) (req : Request)
    (h : Event.clientDo i req ∈ main w (.ok p)) :
    ∃ req0 : Request, req0.Header = ⟨[]⟩ ∧
      req = setAuth (setDefaults p.vargs) (setHeaders (setDefaults p.vargs) req0) ∧
      (∀ kv ∈ p.vargs.Headers,
        (∀ kv1 ∈ p.vargs.Headers,
          CanonicalMIMEHeaderKey kv1.1 = CanonicalMIMEHeaderKey kv.1 → kv1 = kv) →
        (setHeaders (setDefaults p.vargs) req0).Header.values (CanonicalMIMEHeaderKey kv.1) =
          some [kv.2] ∧
        (setHeaders (setDefaults p.vargs) req0).Header.Get kv.1 = kv.2) ∧
      ((∃ kv ∈ p.vargs.Headers, CanonicalMIMEHeaderKey kv.1 = "Content-Type") →
        ∃ kv ∈ p.vargs.Headers, CanonicalMIMEHeaderKey kv.1 = "Content-Type" ∧
          (setHeaders (setDefaults p.vargs) req0).Header.values "Content-Type" = some [kv.2]) ∧
      ((∀ kv ∈ p.vargs.Headers, CanonicalMIMEHeaderKey kv.1 ≠ "Content-Type") →
        (setHeaders (setDefaults p.vargs) req0).Header.values "Content-Type" =
          some [if p.vargs.ContentType = "" then "application/json" else p.vargs.ContentType]) ∧
      (∀ key vs, (setHeaders (setDefaults p.vargs) req0).Header.values key = some vs →
        key = "Content-Type" ∨
          ∃ kv ∈ p.vargs.Headers, CanonicalMIMEHeaderKey kv.1 = key ∧ vs = [kv.2]) := by
  obtain ⟨buf, raw, uri, req0, _, _, h1, h2, hr, hall⟩ := clientDo_mem_main h
  have hhead : (setDefaults p.vargs).Headers = p.vargs.Headers := (setDefaults_rest _).2.2.2.1
  have h0 : req0.Header = ⟨[]⟩ := by rw [NewRequest_ok h2]
  refine ⟨req0, h0, hr, ?_, ?_, ?_, ?_⟩
  · intro kv hkv huniq
    have hv : (setHeaders (setDefaults p.vargs) req0).Header.values (CanonicalMIMEHeaderKey kv.1) =
        some [kv.2] := by
      rw [setHeaders_values, hhead]
      cases hl : lastFor (CanonicalMIMEHeaderKey kv.1) p.vargs.Headers with
      | some v =>
        obtain ⟨kv1, hm1, hc1, hv1⟩ := lastFor_eq_some hl
        rw [huniq kv1 hm1 hc1] at hv1
        rw [hv1]
      | none => exact absurd rfl (lastFor_eq_none.mp hl kv hkv)
    refine ⟨hv, ?_⟩
    unfold Header.Get
    rw [hv]
  · rintro ⟨kv, hkv, hc⟩
    rw [setHeaders_values, hhead]
    cases hl : lastFor "Content-Type" p.vargs.Headers with
    | some v =>
      obtain ⟨kv1, hm1, hc1, hv1⟩ := lastFor_eq_some hl
      exact ⟨kv1, hm1, hc1, by rw [hv1]⟩
    | none => exact absurd hc (lastFor_eq_none.mp hl kv hkv)
  · intro hno
    rw [setHeaders_values, hhead, lastFor_eq_none.mpr hno, ← setDefaults_ContentType]
    simp
  · intro key vs hvs
    rw [setHeaders_values, hhead] at hvs
    cases hl : lastFor key p.vargs.Headers with
    | some v =>
      rw [hl] at hvs
      obtain ⟨kv1, hm1, hc1, hv1⟩ := lastFor_eq_some hl
      right
      refine ⟨kv1, hm1, hc1, ?_⟩
      simp only [Option.some.injEq] at hvs
      rw [hv1, hvs]
    | none =>
      rw [hl] at hvs
      by_cases hk : "Content-Type" = key
      · exact Or.inl hk.symm
      · simp only [hk, if_false, h0] at hvs
        cases hvs

/-- C3, on the example run: the custom header `x-a` is alone under its canonical
name, no custom header is named `Content-Type`, and a request with the header
set described exists for the first target. -/
theorem header_precedence_witness :
    ∃ req0 : Request, req0.Header = ⟨[]⟩ ∧
      exampleRequest = setAuth (setDefaults exampleVargs) (setHeaders (setDefaults exampleVargs) req0) ∧
      (setHeaders (setDefaults exampleVargs) req0).Header.Get "x-a" = "1" ∧
      (setHeaders (setDefaults exampleVargs) req0).Header.values "Content-Type" =
        some ["application/json"] := by
  obtain ⟨req0, h0, hr, hcustom, _, hct, _⟩ :=
    header_precedence exampleWorld exampleParams 0 exampleRequest (by decide)
  exact ⟨req0, h0, hr, (hcustom ("x-a", "1") (by decide) (by decide)).2, hct (by decide)⟩

/-- C3 as stated fails: with the custom headers `X-A: 1` and `x-a: 2`, in
whichever order the map is visited, the request carries one value under `X-A`
and the other entry is not carried. -/
theorem header_precedence_counterexample :
    (Event.clientDo 0 (clashRequest "2") ∈
        main exampleWorld (.ok (clashParams [("X-A", "1"), ("x-a", "2")])) ∧
      (clashRequest "2").Header.Get "X-A" ≠ "1") ∧
    (Event.clientDo 0 (clashRequest "1") ∈
        main exampleWorld (.ok (clashParams [("x-a", "2"), ("X-A", "1")])) ∧
      (clashRequest "1").Header.Get "x-a" ≠ "2") := by
  decide

/-! ## C6: payload reuse -/

theorem payload_of_buildPayload {w : World} {p : Params} {buf : Buffer}
    (h : (buildPayload w p (setDefaults p.vargs)).2 = some buf) :
    payload w p = some buf.Bytes := by
  unfold payload
  rw [h]
  rfl

/-- C6 (payload reuse).  For every request executed in a run: its body is a
reader over the payload computed before the loop with its cursor at 0, so the
bytes it delivers are the payload, whatever the index of the target; the body
of any other request executed in the run is equal to it; and the request body
printed in any `[debug]` record of the run is that payload. -/
theorem payload_reuse (w : World) (p : Params) (i : Nat) (req : Request)
    (h : Event.clientDo i req ∈ main w (.ok p)) :
    payload w p = some req.Body.unread ∧ req.Body.i = 0 ∧ req.Body.s = req.Body.unread ∧
    (∀ j req1, Event.clientDo j req1 ∈ main w (.ok p) → req1.Body = req.Body) ∧
    (∀ n u m hd rb st body, Event.printf (.debug n u m hd rb st body) ∈ main w (.ok p) →
      rb = req.Body.unread) := by
  obtain ⟨buf, raw, uri, req0, hb, _, h1, h2, hr, _⟩ := clientDo_mem_main h
  have hbody : req.Body = NewReader buf.Bytes := by
    rw [hr, (setAuth_fields _ _).2.2, (setHeaders_fields _ _).2.2, NewRequest_ok h2]
  have hun : req.Body.unread = buf.Bytes := by
    rw [hbody]; simp [NewReader, Reader.unread]
  refine ⟨?_, ?_, ?_, ?_, ?_⟩
  · rw [hun]; exact payload_of_buildPayload hb
  · rw [hbody]; rfl
  · rw [hun, hbody]; rfl
  · intro j req1 hj
    obtain ⟨buf1, _, _, req01, hb1, _, _, h21, hr1, _⟩ := clientDo_mem_main hj
    rw [hb] at hb1
    simp only [Option.some.injEq] at hb1
    subst hb1
    rw [hbody, hr1, (setAuth_fields _ _).2.2, (setHeaders_fields _ _).2.2, NewRequest_ok h21]
  · intro n u m hd rb st body hm
    have hp : Event.printf (.debug n u m hd rb st body) ∉
        (buildPayload w p (setDefaults p.vargs)).1 := by
      intro hm
      rcases mem_buildPayload hm with ⟨_, h⟩ | ⟨_, h⟩ | ⟨_, _, h⟩ | h <;> cases h
    obtain ⟨buf1, k1, raw1, hb1, _, hm1, _⟩ := mem_main_iteration hm hp (fun k hk => by cases hk)
    rw [hb] at hb1
    simp only [Option.some.injEq] at hb1
    subst hb1
    rw [hun]
    rcases mem_iteration hm1 with h | ⟨_, _, h⟩ | h | ⟨_, _, h⟩ | h | ⟨_, _, _, _, h⟩ |
      ⟨_, req01, resp, _, _, _, h⟩ | ⟨_, _, _, h⟩ | ⟨_, h⟩
    · cases h
    · cases h
    · cases h
    · cases h
    · cases (mem_authEvents h).2
    · cases h
    · rcases mem_report h with h | ⟨_, _, h⟩ | h
      · cases h
      · cases h
      · unfold record at h
        split at h
        · simp only [Event.printf.injEq, Output.debug.injEq] at h
          exact h.2.2.2.2.1
        · cases h
    · cases h
    · cases h

/-- C6, on the example run: the body of the first request delivers the three
bytes of the payload, and the request of the second target has the same
body. -/
theorem payload_reuse_witness :
    payload exampleWorld exampleParams = some [123, 125, 10] ∧
    exampleRequest.Body.unread = [123, 125, 10] ∧
    ({ exampleRequest with URL := "http://b" } : Request).Body = exampleRequest.Body :=
  have h := payload_reuse exampleWorld exampleParams 0 exampleRequest (by decide)
  ⟨h.1, rfl, h.2.2.2.1 1 { exampleRequest with URL := "http://b" } (by decide)⟩

/-! ## C7: template precedence -/

theorem jsonEncode_not_mem_mainLoop {w : World} {vargs : Webhook} {buf : Buffer}
    {urls : List String} {i : Nat} {d : List Nat} (data : Data) :
    Event.jsonEncode data ∉ mainLoop w vargs buf i urls d := by
  intro hm
  rcases mem_mainLoop urls i d hm with ⟨k, hk⟩ | ⟨k, raw, _, hm1, _⟩
  · cases hk
  · rcases mem_iteration hm1 with h | ⟨_, _, h⟩ | h | ⟨_, _, h⟩ | h | ⟨_, _, _, _, h⟩ |
      ⟨_, req01, resp, _, _, _, h⟩ | ⟨_, _, _, h⟩ | ⟨_, h⟩
    · cases h
    · cases h
    · cases h
    · cases h
    · cases (mem_authEvents h).2
    · cases h
    · rcases mem_report h with h | ⟨_, _, h⟩ | h <;> cases h
    · cases h
    · cases h

theorem templateWrite_not_mem_mainLoop {w : World} {vargs : Webhook} {buf : Buffer}
    {urls : List String} {i : Nat} {d : List Nat} (t : String) (v : Payload) :
    Event.templateWrite t v ∉ mainLoop w vargs buf i urls d := by
  intro hm
  rcases mem_mainLoop urls i d hm with ⟨k, hk⟩ | ⟨k, raw, _, hm1, _⟩
  · cases hk
  · rcases mem_iteration hm1 with h | ⟨_, _, h⟩ | h | ⟨_, _, h⟩ | h | ⟨_, _, _, _, h⟩ |
      ⟨_, req01, resp, _, _, _, h⟩ | ⟨_, _, _, h⟩ | ⟨_, h⟩
    · cases h
    · cases h
    · cases h
    · cases h
    · cases (mem_authEvents h).2
    · cases h
    · rcases mem_report h with h | ⟨_, _, h⟩ | h <;> cases h
    · cases h
    · cases h

theorem Buffer_empty_Write_Bytes (out : Bytes) : (Buffer.empty.Write out).Bytes = out := by
  simp [Buffer.empty, Buffer.Write, Buffer.Bytes]

theorem buildPayload_of_template (w : World) (p : Params) {vargs : Webhook}
    (h : vargs.Template ≠ "") :
    buildPayload w p vargs =
      match w.templateWrite vargs.Template ⟨p.build, p.repo, p.sys⟩ with
      | .error err =>
        ([.templateWrite vargs.Template ⟨p.build, p.repo, p.sys⟩,
          .printf (.fatal "Error executing content template." err), .exit 1], none)
      | .ok out =>
        ([.templateWrite vargs.Template ⟨p.build, p.repo, p.sys⟩],
          some (Buffer.empty.Write out)) := by
  have hlen : ¬ len vargs.Template = 0 := by rw [len_eq_zero_iff]; exact h
  unfold buildPayload
  simp only [if_neg hlen]

theorem buildPayload_of_no_template (w : World) (p : Params) {vargs : Webhook}
    (h : vargs.Template = "") :
    buildPayload w p vargs =
      match w.jsonEncode ⟨p.sys, p.repo, p.build⟩ with
      | .error err =>
        ([.jsonEncode ⟨p.sys, p.repo, p.build⟩,
          .printf (.fatal "Error encoding json payload." err), .exit 1], none)
      | .ok out => ([.jsonEncode ⟨p.sys, p.repo, p.build⟩], some (Buffer.empty.Write out)) := by
  have hlen : len vargs.Template = 0 := by rw [len_eq_zero_iff]; exact h
  unfold buildPayload
  simp only [if_pos hlen]

/-- C7 (template precedence).  When the template is non-empty, the payload is
what `template.Write` renders from the template and the view (Build, Repo,
System), `template.Write` is called and the JSON encoder is never called in
the run; when the template is empty, the payload is what the JSON encoder
makes of the object (system, repo, build), the encoder is called and
`template.Write` is never called.  There is no payload when the call fails. -/
theorem template_precedence (w : World) (p : Params) :
    (p.vargs.Template ≠ "" →
      payload w p = (w.templateWrite p.vargs.Template ⟨p.build, p.repo, p.sys⟩).toOption ∧
      Event.templateWrite p.vargs.Template ⟨p.build, p.repo, p.sys⟩ ∈ main w (.ok p) ∧
      ∀ data, Event.jsonEncode data ∉ main w (.ok p)) ∧
    (p.vargs.Template = "" →
      payload w p = (w.jsonEncode ⟨p.sys, p.repo, p.build⟩).toOption ∧
      Event.jsonEncode ⟨p.sys, p.repo, p.build⟩ ∈ main w (.ok p) ∧
      ∀ t v, Event.templateWrite t v ∉ main w (.ok p)) := by
  have htempl : (setDefaults p.vargs).Template = p.vargs.Template := (setDefaults_rest _).2.2.2.2
  constructor
  · intro ht
    have ht1 : (setDefaults p.vargs).Template ≠ "" := by rw [htempl]; exact ht
    have hbp := buildPayload_of_template w p ht1
    rw [htempl] at hbp
    refine ⟨?_, ?_, ?_⟩
    · unfold payload
      rw [hbp]
      cases w.templateWrite p.vargs.Template ⟨p.build, p.repo, p.sys⟩ with
      | error err => rfl
      | ok out => simp [Except.toOption, Buffer_empty_Write_Bytes]
    · rw [main_ok]
      apply List.mem_append_left
      rw [hbp]
      cases w.templateWrite p.vargs.Template ⟨p.build, p.repo, p.sys⟩ <;> simp
    · intro data hm
      rcases mem_main hm with h | ⟨buf, _, h⟩
      · rcases mem_buildPayload h with ⟨h0, _⟩ | ⟨_, h⟩ | ⟨_, _, h⟩ | h
        · exact ht1 h0
        · cases h
        · cases h
        · cases h
      · exact jsonEncode_not_mem_mainLoop data h
  · intro ht
    have ht1 : (setDefaults p.vargs).Template = "" := by rw [htempl]; exact ht
    have hbp := buildPayload_of_no_template w p ht1
    refine ⟨?_, ?_, ?_⟩
    · unfold payload
      rw [hbp]
      cases w.jsonEncode ⟨p.sys, p.repo, p.build⟩ with
      | error err => rfl
      | ok out => simp [Except.toOption, Buffer_empty_Write_Bytes]
    · rw [main_ok]
      apply List.mem_append_left
      rw [hbp]
      cases w.jsonEncode ⟨p.sys, p.repo, p.build⟩ <;> simp
    · intro t v hm
      rcases mem_main hm with h | ⟨buf, _, h⟩
      · rcases mem_buildPayload h with ⟨_, h⟩ | ⟨h0, _⟩ | ⟨_, _, h⟩ | h
        · cases h
        · exact h0 ht1
        · cases h
        · cases h
      · exact templateWrite_not_mem_mainLoop t v h

/-- C7, on two example runs: with the template `hi` the payload is the rendered
template, with no template it is the encoder's output. -/
theorem template_precedence_witness :
    payload exampleWorld { exampleParams with vargs := { exampleVargs with Template := "hi" } } =
      some [104, 105] ∧
    payload exampleWorld exampleParams = some [123, 125, 10] :=
  ⟨((template_precedence exampleWorld
      { exampleParams with vargs := { exampleVargs with Template := "hi" } }).1 (by decide)).1,
    ((template_precedence exampleWorld exampleParams).2 (by decide)).1⟩

/-! ## The loop, target by target -/

theorem iteration_index {w : World} {vargs : Webhook} {buf : Buffer} {i : Nat} {rawurl : String}
    {e : Event} (h : e ∈ (iteration w vargs buf i rawurl).1) :
    e.index = some i ∨ (∃ o, e = .printf o) ∨ e = .exit 1 := by
  rcases mem_iteration h with h | ⟨_, _, h⟩ | h | ⟨_, _, h⟩ | h | ⟨_, _, _, _, h⟩ |
    ⟨_, _, _, _, _, _, h⟩ | ⟨_, _, _, h⟩ | ⟨_, h⟩
  · rw [h]; exact Or.inl rfl
  · rw [h]; exact Or.inl rfl
  · rw [h]; exact Or.inl rfl
  · rw [h]; exact Or.inl rfl
  · rw [(mem_authEvents h).2]; exact Or.inl rfl
  · rw [h]; exact Or.inl rfl
  · rcases mem_report h with h | ⟨_, _, h⟩ | h
    · rw [h]; exact Or.inl rfl
    · exact Or.inr (Or.inl ⟨_, h⟩)
    · exact Or.inr (Or.inl ⟨_, h⟩)
  · exact Or.inr (Or.inl ⟨_, h⟩)
  · exact Or.inr (Or.inr h)

/-- A record printed by the body of index `i` carries the number `i + 1`. -/
theorem iteration_record_index {w : World} {vargs : Webhook} {buf : Buffer} {i n : Nat}
    {rawurl : String} {o : Output} (h : Event.printf o ∈ (iteration w vargs buf i rawurl).1)
    (hn : o.index = some n) : n = i + 1 := by
  rcases mem_iteration h with h | ⟨_, _, h⟩ | h | ⟨_, _, h⟩ | h | ⟨_, _, _, _, h⟩ |
    ⟨_, _, _, _, _, _, h⟩ | ⟨_, _, _, h⟩ | ⟨_, h⟩
  · cases h
  · cases h
  · cases h
  · cases h
  · cases (mem_authEvents h).2
  · cases h
  · rcases mem_report h with h | ⟨_, _, h⟩ | h
    · cases h
    · simp only [Event.printf.injEq] at h
      rw [h] at hn; cases hn
    · simp only [Event.printf.injEq] at h
      rw [h, record_index] at hn
      simp only [Option.some.injEq] at hn
      exact hn.symm
  · simp only [Event.printf.injEq] at h
    rw [h] at hn; cases hn
  · cases h

theorem mem_recordsFor {n : Nat} {trace : List Event} {o : Output} :
    o ∈ recordsFor n trace ↔ Event.printf o ∈ trace ∧ o.index = some n := by
  unfold recordsFor
  rw [List.mem_filterMap]
  constructor
  · rintro ⟨e, he, h⟩
    cases e with
    | printf o1 =>
      simp only at h
      split at h
      · simp only [Option.some.injEq] at h
        subst h
        exact ⟨he, by assumption⟩
      · cases h
    | _ => cases h
  · rintro ⟨he, h⟩
    exact ⟨_, he, by simp [h]⟩

theorem recordsFor_iteration_ne {w : World} {vargs : Webhook} {buf : Buffer} {i n : Nat}
    (rawurl : String) (h : n ≠ i + 1) : recordsFor n (iteration w vargs buf i rawurl).1 = [] := by
  rw [List.eq_nil_iff_forall_not_mem]
  intro o ho
  obtain ⟨h1, h2⟩ := mem_recordsFor.mp ho
  exact h (iteration_record_index h1 h2)

theorem recordsFor_mainLoop_le {w : World} {vargs : Webhook} {buf : Buffer} {n : Nat}
    (urls : List String) (i : Nat) (d : List Nat) (h : n ≤ i) :
    recordsFor n (mainLoop w vargs buf i urls d) = [] := by
  rw [List.eq_nil_iff_forall_not_mem]
  intro o ho
  obtain ⟨h1, h2⟩ := mem_recordsFor.mp ho
  rcases mem_mainLoop urls i d h1 with ⟨k, hk⟩ | ⟨k, raw, _, hm, _⟩
  · cases hk
  · have := iteration_record_index hm h2
    omega

theorem mem_iterations {w : World} {vargs : Webhook} {buf : Buffer} {e : Event}
    (urls : List String) :
    ∀ i, e ∈ iterations w vargs buf i urls →
      ∃ k raw, urls[k]? = some raw ∧ e ∈ (iteration w vargs buf (i + k) raw).1 := by
  induction urls with
  | nil => intro i h; cases h
  | cons raw rest ih =>
    intro i h
    rw [iterations] at h
    rcases List.mem_append.mp h with h | h
    · exact ⟨0, raw, by simp, by simpa using h⟩
    · obtain ⟨k, r, hk, hm⟩ := ih (i + 1) h
      refine ⟨k + 1, r, by simpa using hk, ?_⟩
      rwa [show i + (k + 1) = i + 1 + k by omega]

theorem recordsFor_iterations_gt {w : World} {vargs : Webhook} {buf : Buffer} {n : Nat}
    (urls : List String) (i : Nat) (h : i + urls.length < n) :
    recordsFor n (iterations w vargs buf i urls) = [] := by
  rw [List.eq_nil_iff_forall_not_mem]
  intro o ho
  obtain ⟨h1, h2⟩ := mem_recordsFor.mp ho
  obtain ⟨k, raw, hk, hm⟩ := mem_iterations urls i h1
  have := iteration_record_index hm h2
  have hlt : k < urls.length := by
    by_contra hge
    rw [List.getElem?_eq_none (by omega)] at hk
    cases hk
  omega

theorem requestsExecuted_iteration {w : World} {vargs : Webhook} {buf : Buffer} {i : Nat}
    {rawurl uri : String} {req0 : Request} {resp : Response}
    (h1 : w.urlParse rawurl = .ok uri)
    (h2 : NewRequest w vargs.Method uri (NewReader buf.Bytes) = .ok req0)
    (h3 : w.clientDo i (setAuth vargs (setHeaders vargs req0)) = .ok resp) :
    requestsExecuted (iteration w vargs buf i rawurl).1 =
      [(i, setAuth vargs (setHeaders vargs req0))] := by
  rw [iteration_of_delivers h1 h2 h3]
  simp only [requestsExecuted_append, requestsExecuted_headerEvents,
    requestsExecuted_authEvents, requestsExecuted_report]
  simp [requestsExecuted]

theorem recordsFor_iteration {w : World} {vargs : Webhook} {buf : Buffer} {i : Nat}
    {rawurl uri : String} {req0 : Request} {resp : Response}
    (h1 : w.urlParse rawurl = .ok uri)
    (h2 : NewRequest w vargs.Method uri (NewReader buf.Bytes) = .ok req0)
    (h3 : w.clientDo i (setAuth vargs (setHeaders vargs req0)) = .ok resp) :
    recordsFor (i + 1) (iteration w vargs buf i rawurl).1 =
      if vargs.Debug = true ∨ resp.StatusCode ≥ StatusBadRequest then
        [record vargs i (setAuth vargs (setHeaders vargs req0)) buf.Bytes resp]
      else [] := by
  rw [iteration_of_delivers h1 h2 h3]
  simp only [recordsFor_append, recordsFor_headerEvents, recordsFor_authEvents,
    recordsFor_report]
  simp [recordsFor]

/-- An executed request found in the trace of the loop: the targets before its
own all met no fatal error, and it is the request the body built. -/
theorem clientDo_mem_mainLoop {w : World} {vargs : Webhook} {buf : Buffer} {k : Nat}
    {req : Request} (urls : List String) :
    ∀ (i : Nat) (d : List Nat), Event.clientDo k req ∈ mainLoop w vargs buf i urls d →
      ∃ pre raw rest uri req0, urls = pre ++ raw :: rest ∧ k = i + pre.length ∧
        (∀ j r, pre[j]? = some r → Delivers w vargs buf (i + j) r) ∧
        w.urlParse raw = .ok uri ∧
        NewRequest w vargs.Method uri (NewReader buf.Bytes) = .ok req0 ∧
        req = setAuth vargs (setHeaders vargs req0) := by
  induction urls with
  | nil =>
    intro i d h
    rw [mainLoop] at h
    obtain ⟨_, _, hk⟩ := List.mem_map.mp h
    cases hk
  | cons raw rest ih =>
    intro i d h
    have here : Event.clientDo k req ∈ (iteration w vargs buf i raw).1 →
        ∃ pre raw1 rest1 uri req0, raw :: rest = pre ++ raw1 :: rest1 ∧ k = i + pre.length ∧
          (∀ j r, pre[j]? = some r → Delivers w vargs buf (i + j) r) ∧
          w.urlParse raw1 = .ok uri ∧
          NewRequest w vargs.Method uri (NewReader buf.Bytes) = .ok req0 ∧
          req = setAuth vargs (setHeaders vargs req0) := by
      intro hm
      rcases mem_iteration hm with h | ⟨_, _, h⟩ | h | ⟨_, _, h⟩ | h | ⟨uri, req0, h1, h2, h⟩ |
        ⟨_, _, _, _, _, _, h⟩ | ⟨_, _, _, h⟩ | ⟨_, h⟩
      · cases h
      · cases h
      · cases h
      · cases h
      · cases (mem_authEvents h).2
      · simp only [Event.clientDo.injEq] at h
        exact ⟨[], raw, rest, uri, req0, rfl, by simpa using h.1,
          fun j r hj => by simp at hj, h1, h2, h.2⟩
      · rcases mem_report h with h | ⟨_, _, h⟩ | h <;> cases h
      · cases h
      · cases h
    cases hc : (iteration w vargs buf i raw).2 with
    | false =>
      rw [mainLoop_cons_false _ _ hc] at h
      exact here h
    | true =>
      rw [mainLoop_cons_true _ _ hc] at h
      rcases List.mem_append.mp h with h | h
      · exact here h
      · obtain ⟨pre, raw1, rest1, uri, req0, hu, hk, hd, h1, h2, hr⟩ := ih (i + 1) (i :: d) h
        refine ⟨raw :: pre, raw1, rest1, uri, req0, by rw [hu]; rfl,
          by simp only [List.length_cons]; omega, ?_, h1, h2, hr⟩
        intro j r hj
        cases j with
        | zero =>
          simp only [List.getElem?_cons_zero, Option.some.injEq] at hj
          subst hj
          exact (iteration_snd_iff w vargs buf i raw).mp hc
        | succ j =>
          simp only [List.getElem?_cons_succ] at hj
          have := hd j r hj
          rwa [show i + 1 + j = i + (j + 1) by omega] at this

theorem recordsFor_buildPayload (n : Nat) (w : World) (p : Params) (vargs : Webhook) :
    recordsFor n (buildPayload w p vargs).1 = [] := by
  rw [List.eq_nil_iff_forall_not_mem]
  intro o ho
  obtain ⟨h1, h2⟩ := mem_recordsFor.mp ho
  rcases mem_buildPayload h1 with ⟨_, h⟩ | ⟨_, h⟩ | ⟨_, _, h⟩ | h
  · cases h
  · cases h
  · simp only [Event.printf.injEq] at h
    rw [h] at h2; cases h2
  · cases h

/-- The trace of a run around an executed request that was answered: the calls
that build the payload, the bodies of the targets before, the body of its own
target, and the rest of the loop. -/
theorem main_around {w : World} {p : Params} {i : Nat} {req : Request} {resp : Response}
    (h : Event.clientDo i req ∈ main w (.ok p)) (hresp : w.clientDo i req = .ok resp) :
    ∃ buf pre raw rest uri req0,
      (buildPayload w p (setDefaults p.vargs)).2 = some buf ∧
      (setDefaults p.vargs).Urls = pre ++ raw :: rest ∧ pre.length = i ∧
      w.urlParse raw = .ok uri ∧
      NewRequest w (setDefaults p.vargs).Method uri (NewReader buf.Bytes) = .ok req0 ∧
      req = setAuth (setDefaults p.vargs) (setHeaders (setDefaults p.vargs) req0) ∧
      main w (.ok p) =
        (buildPayload w p (setDefaults p.vargs)).1 ++
          (iterations w (setDefaults p.vargs) buf 0 pre ++
            ((iteration w (setDefaults p.vargs) buf i raw).1 ++
              mainLoop w (setDefaults p.vargs) buf (i + 1) rest
                (i :: (List.range' 0 i).reverse))) := by
  have hp : Event.clientDo i req ∉ (buildPayload w p (setDefaults p.vargs)).1 := by
    intro hm
    rcases mem_buildPayload hm with ⟨_, h⟩ | ⟨_, h⟩ | ⟨_, _, h⟩ | h <;> cases h
  rcases mem_main h with h | ⟨buf, hb, h⟩
  · exact absurd h hp
  · obtain ⟨pre, raw, rest, uri, req0, hu, hk, hd, h1, h2, hr⟩ := clientDo_mem_mainLoop _ 0 [] h
    have hlen : pre.length = i := by omega
    refine ⟨buf, pre, raw, rest, uri, req0, hb, hu, hlen, h1, h2, hr, ?_⟩
    have h3 : w.clientDo i (setAuth (setDefaults p.vargs) (setHeaders (setDefaults p.vargs) req0)) =
        .ok resp := by rw [← hr]; exact hresp
    have hc : (iteration w (setDefaults p.vargs) buf i raw).2 = true :=
      (iteration_snd_iff _ _ _ _ _).mpr ⟨uri, req0, resp, h1, h2, h3⟩
    rw [main_ok, hb, hu]
    simp only
    rw [mainLoop_append _ _ _ pre (raw :: rest) 0 [] hd]
    simp only [Nat.zero_add, hlen, List.append_nil]
    rw [mainLoop_cons_true _ _ hc]

/-- The records that carry the number of an answered request. -/
theorem recordsFor_main_answered (w : World) (p : Params) (i : Nat) (req : Request)
    (resp : Response) (h : Event.clientDo i req ∈ main w (.ok p))
    (hresp : w.clientDo i req = .ok resp) :
    recordsFor (i + 1) (main w (.ok p)) =
      if p.vargs.Debug = true ∨ resp.StatusCode ≥ StatusBadRequest then
        [record (setDefaults p.vargs) i req req.Body.unread resp]
      else [] := by
  obtain ⟨buf, pre, raw, rest, uri, req0, hb, hu, hlen, h1, h2, hr, hmain⟩ := main_around h hresp
  have h3 : w.clientDo i (setAuth (setDefaults p.vargs) (setHeaders (setDefaults p.vargs) req0)) =
      .ok resp := by rw [← hr]; exact hresp
  have hdebug : (setDefaults p.vargs).Debug = p.vargs.Debug := (setDefaults_rest _).2.1
  have hun : req.Body.unread = buf.Bytes := by
    rw [hr, (setAuth_fields _ _).2.2, (setHeaders_fields _ _).2.2, NewRequest_ok h2]
    simp [NewReader, Reader.unread]
  rw [hmain, recordsFor_append, recordsFor_append, recordsFor_append, recordsFor_buildPayload,
    recordsFor_iterations_gt pre 0 (by omega), recordsFor_mainLoop_le rest (i + 1) _ (le_refl _),
    recordsFor_iteration h1 h2 h3, ← hr, hdebug, hun]
  simp only [List.nil_append, List.append_nil]

theorem record_responseBody (vargs : Webhook) (i : Nat) (req : Request) (b : Bytes)
    (resp : Response) : (record vargs i req b resp).responseBody = some resp.Body.data := by
  unfold record
  split <;> rfl

/-! ## C5: the reporting threshold -/

/-- C5 (reporting threshold).  For every request executed in a run at loop
index `i` and answered with a response: the records of the run that carry the
number `i + 1` are exactly one `[debug]` record (number, URL, method, headers,
request body, response status, response body) when debug is on, whatever the
status code; exactly one `[info]` record (number, URL, response status,
response body) when debug is off and the status code is at least 400; and
none otherwise. -/
theorem reporting_threshold (w : World) (p : Params) (i : Nat) (req : Request)
    (resp : Response) (h : Event.clientDo i req ∈ main w (.ok p))
    (hresp : w.clientDo i req = .ok resp) :
    recordsFor (i + 1) (main w (.ok p)) =
      if p.vargs.Debug = true then
        [.debug (i + 1) req.URL req.Method req.Header req.Body.unread resp.Status resp.Body.data]
      else if resp.StatusCode ≥ 400 then
        [.info (i + 1) req.URL resp.Status resp.Body.data]
      else [] := by
  have hdebug : (setDefaults p.vargs).Debug = p.vargs.Debug := (setDefaults_rest _).2.1
  rw [recordsFor_main_answered w p i req resp h hresp]
  unfold record
  rw [hdebug]
  cases hd : p.vargs.Debug with
  | true => simp
  | false =>
    by_cases hs : resp.StatusCode ≥ 400
    · simp [StatusBadRequest, hs]
    · simp [StatusBadRequest, hs]

/-- C5, on the example run (debug off): the first request is answered 404 and
one `[info]` record numbered 1 is printed; the second is answered 200 and no
record numbered 2 is printed. -/
theorem reporting_threshold_witness :
    recordsFor 1 (main exampleWorld (.ok exampleParams)) =
      [.info 1 "http://a" "404 Not Found" [110, 111]] ∧
    recordsFor 2 (main exampleWorld (.ok exampleParams)) = [] :=
  ⟨reporting_threshold exampleWorld exampleParams 0 exampleRequest
      ⟨"404 Not Found", 404, ⟨[110, 111], some "unexpected EOF"⟩⟩ (by decide) rfl,
    reporting_threshold exampleWorld exampleParams 1 { exampleRequest with URL := "http://b" }
      ⟨"200 OK", 200, ⟨[111, 107], none⟩⟩ (by decide) rfl⟩

/-! ## C9: a failed read of the response body -/

theorem urlParse_mem_iteration (w : World) (vargs : Webhook) (buf : Buffer) (i : Nat)
    (rawurl : String) : Event.urlParse i rawurl ∈ (iteration w vargs buf i rawurl).1 := by
  rcases iteration_cases w vargs buf i rawurl with ⟨_, _, hit⟩ | ⟨_, _, _, _, hit⟩ |
    ⟨_, _, _, _, _, _, hit⟩ | ⟨_, _, _, _, _, _, hit⟩ <;> rw [hit] <;> simp

theorem iteration_subset_mainLoop (w : World) (vargs : Webhook) (buf : Buffer) (i : Nat)
    (rawurl : String) (rest : List String) (d : List Nat) :
    ∀ e ∈ (iteration w vargs buf i rawurl).1, e ∈ mainLoop w vargs buf i (rawurl :: rest) d := by
  intro e he
  cases hc : (iteration w vargs buf i rawurl).2 with
  | false => rw [mainLoop_cons_false _ _ hc]; exact he
  | true => rw [mainLoop_cons_true _ _ hc]; exact List.mem_append_left _ he

theorem exitStatus_append_close (a : List Event) (k : Nat) (d : List Nat) :
    exitStatus (a ++ (k :: d).map Event.close) = 0 := by
  unfold exitStatus
  rw [List.getLast?_append, List.getLast?_map]
  cases hl : (k :: d).getLast? with
  | none => simp at hl
  | some x => simp

theorem readError_mem_report {vargs : Webhook} {i : Nat} {req : Request} {b : Bytes}
    {resp : Response} {err : String}
    (hread : vargs.Debug = true ∨ resp.StatusCode ≥ StatusBadRequest)
    (herr : resp.Body.err = some err) :
    Event.printf (.readError err) ∈ report vargs i req b resp := by
  have hc : (vargs.Debug || decide (resp.StatusCode ≥ StatusBadRequest)) = true := by
    simpa using hread
  rw [report, if_pos hc]
  simp [ReadAll, herr]

/-- C9 (failed read of the response body), as amended.  For every request
executed in a run and answered, when the response body is read (debug on or
status code at least 400) and the read fails: the failure is printed, the run
goes on (the next target, if any, is attempted; after the last target `main`
returns and the exit status is 0), and exactly one record is printed for the
target, whose response body is the bytes that were read before the failure. -/
theorem read_failure_is_recoverable (w : World) (p : Params) (i : Nat) (req : Request)
    (resp : Response) (err : String) (h : Event.clientDo i req ∈ main w (.ok p))
    (hresp : w.clientDo i req = .ok resp)
    (hread : p.vargs.Debug = true ∨ resp.StatusCode ≥ 400)
    (herr : resp.Body.err = some err) :
    Event.printf (.readError err) ∈ main w (.ok p) ∧
    (∀ raw, p.vargs.Urls[i + 1]? = some raw → Event.urlParse (i + 1) raw ∈ main w (.ok p)) ∧
    (p.vargs.Urls.length = i + 1 → exitStatus (main w (.ok p)) = 0) ∧
    ∃ o, recordsFor (i + 1) (main w (.ok p)) = [o] ∧ o.responseBody = some resp.Body.data := by
  obtain ⟨buf, pre, raw, rest, uri, req0, hb, hu, hlen, h1, h2, hr, hmain⟩ := main_around h hresp
  have h3 : w.clientDo i (setAuth (setDefaults p.vargs) (setHeaders (setDefaults p.vargs) req0)) =
      .ok resp := by rw [← hr]; exact hresp
  have hurls : (setDefaults p.vargs).Urls = p.vargs.Urls := (setDefaults_rest _).1
  have hdebug : (setDefaults p.vargs).Debug = p.vargs.Debug := (setDefaults_rest _).2.1
  rw [hurls] at hu
  refine ⟨?_, ?_, ?_, ?_⟩
  · rw [hmain, iteration_of_delivers h1 h2 h3]
    apply List.mem_append_right
    apply List.mem_append_right
    apply List.mem_append_left
    apply List.mem_append_right
    exact readError_mem_report (by rw [hdebug]; exact hread) herr
  · intro raw1 hraw1
    rw [hu, List.getElem?_append_right (by omega)] at hraw1
    rw [show i + 1 - pre.length = 1 by omega] at hraw1
    cases rest with
    | nil => simp at hraw1
    | cons r rest1 =>
      simp only [List.getElem?_cons_succ, List.getElem?_cons_zero, Option.some.injEq] at hraw1
      subst hraw1
      rw [hmain]
      apply List.mem_append_right
      apply List.mem_append_right
      apply List.mem_append_right
      exact iteration_subset_mainLoop _ _ _ _ _ _ _ _ (urlParse_mem_iteration _ _ _ _ _)
  · intro hl
    rw [hu] at hl
    have hrest : rest = [] := by
      cases rest with
      | nil => rfl
      | cons r rest1 => simp at hl; omega
    rw [hmain, hrest, mainLoop, ← List.append_assoc, ← List.append_assoc]
    exact exitStatus_append_close _ _ _
  · have hread1 : p.vargs.Debug = true ∨ resp.StatusCode ≥ StatusBadRequest := hread
    rw [recordsFor_main_answered w p i req resp h hresp, if_pos hread1]
    exact ⟨_, rfl, record_responseBody _ _ _ _ _⟩

/-- C9, on the run of the example with its first target only: the answer is 404
and the read of its body breaks after the bytes `no`; the failure is printed,
`main` returns with status 0, and the record carries `no`. -/
theorem read_failure_is_recoverable_witness :
    Event.printf (.readError "unexpected EOF") ∈ main exampleWorld (.ok singleParams) ∧
    exitStatus (main exampleWorld (.ok singleParams)) = 0 ∧
    ∃ o, recordsFor 1 (main exampleWorld (.ok singleParams)) = [o] ∧
      o.responseBody = some [110, 111] :=
  have h := read_failure_is_recoverable exampleWorld singleParams 0 exampleRequest
    ⟨"404 Not Found", 404, ⟨[110, 111], some "unexpected EOF"⟩⟩ "unexpected EOF"
    (by decide) rfl (by decide) rfl
  ⟨h.1, h.2.2.1 rfl, h.2.2.2⟩

/-- C9 as stated fails: in the example run the read of the first response body
fails after two bytes, and the record printed for the first target carries
those two bytes, not an empty body. -/
theorem read_failure_counterexample :
    exampleWorld.clientDo 0 exampleRequest =
      .ok ⟨"404 Not Found", 404, ⟨[110, 111], some "unexpected EOF"⟩⟩ ∧
    Event.clientDo 0 exampleRequest ∈ main exampleWorld (.ok exampleParams) ∧
    recordsFor 1 (main exampleWorld (.ok exampleParams)) =
      [.info 1 "http://a" "404 Not Found" [110, 111]] ∧
    (Output.info 1 "http://a" "404 Not Found" [110, 111]).responseBody ≠ some [] :=
  ⟨rfl, by decide, by decide, by decide⟩

/-! ## Runs of the loop without a fatal error -/

theorem delivers_of_enum {w : World} {vargs : Webhook} {buf : Buffer} {urls : List String}
    (h : ∀ x ∈ urls.enum, (iteration w vargs buf x.1 x.2).2 = true) :
    ∀ k raw, urls[k]? = some raw → Delivers w vargs buf k raw := by
  intro k raw hk
  exact (iteration_snd_iff w vargs buf k raw).mp
    (h (k, raw) (List.mk_mem_enum_iff_getElem?.mpr hk))

theorem delivers_tail {w : World} {vargs : Webhook} {buf : Buffer} {i : Nat} {raw : String}
    {rest : List String}
    (h : ∀ k r, (raw :: rest)[k]? = some r → Delivers w vargs buf (i + k) r) :
    ∀ k r, rest[k]? = some r → Delivers w vargs buf (i + 1 + k) r := by
  intro k r hk
  have := h (k + 1) r (by simpa using hk)
  rwa [show i + (k + 1) = i + 1 + k by omega] at this

theorem requestsExecuted_iterations {w : World} {vargs : Webhook} {buf : Buffer}
    (urls : List String) :
    ∀ i, (∀ k raw, urls[k]? = some raw → Delivers w vargs buf (i + k) raw) →
      (requestsExecuted (iterations w vargs buf i urls)).map Prod.fst =
          List.range' i urls.length ∧
        List.Forall₂ (fun raw e => w.urlParse raw = .ok e.2.URL ∧
            ∃ resp, w.clientDo e.1 e.2 = .ok resp) urls
          (requestsExecuted (iterations w vargs buf i urls)) := by
  induction urls with
  | nil => intro i _; simp [iterations, requestsExecuted]
  | cons raw rest ih =>
    intro i h
    obtain ⟨uri, req0, resp, h1, h2, h3⟩ : Delivers w vargs buf i raw := by
      simpa using h 0 raw (by simp)
    obtain ⟨ih1, ih2⟩ := ih (i + 1) (delivers_tail h)
    rw [iterations, requestsExecuted_append, requestsExecuted_iteration h1 h2 h3]
    constructor
    · simp [ih1, List.range'_succ]
    · refine List.Forall₂.cons ⟨?_, resp, h3⟩ ih2
      rw [(setAuth_fields _ _).2.1, (setHeaders_fields _ _).2.1, NewRequest_ok h2]
      exact h1

theorem requestsExecuted_close (d : List Nat) : requestsExecuted (d.map Event.close) = [] := by
  simp [requestsExecuted, List.filterMap_map, Function.comp_def]

theorem exit_not_mem_iterations {w : World} {vargs : Webhook} {buf : Buffer}
    (urls : List String) (i : Nat)
    (h : ∀ k raw, urls[k]? = some raw → Delivers w vargs buf (i + k) raw) (c : Nat) :
    Event.exit c ∉ iterations w vargs buf i urls := by
  intro hm
  obtain ⟨k, raw, hk, hm1⟩ := mem_iterations urls i hm
  have hc := (iteration_snd_iff w vargs buf (i + k) raw).mpr (h k raw hk)
  rcases mem_iteration hm1 with h | ⟨_, _, h⟩ | h | ⟨_, _, h⟩ | h | ⟨_, _, _, _, h⟩ |
    ⟨_, _, _, _, _, _, h⟩ | ⟨_, _, hf, h⟩ | ⟨hf, h⟩
  · cases h
  · cases h
  · cases h
  · cases h
  · cases (mem_authEvents h).2
  · cases h
  · rcases mem_report h with h | ⟨_, _, h⟩ | h <;> cases h
  · cases h
  · rw [hc] at hf; cases hf

theorem close_not_mem_iterations {w : World} {vargs : Webhook} {buf : Buffer}
    (urls : List String) (i k : Nat) : Event.close k ∉ iterations w vargs buf i urls := by
  intro hm
  obtain ⟨_, raw, _, hm1⟩ := mem_iterations urls i hm
  rcases mem_iteration hm1 with h | ⟨_, _, h⟩ | h | ⟨_, _, h⟩ | h | ⟨_, _, _, _, h⟩ |
    ⟨_, _, _, _, _, _, h⟩ | ⟨_, _, _, h⟩ | ⟨_, h⟩
  · cases h
  · cases h
  · cases h
  · cases h
  · cases (mem_authEvents h).2
  · cases h
  · rcases mem_report h with h | ⟨_, _, h⟩ | h <;> cases h
  · cases h
  · cases h

theorem exitStatus_of_no_exit {trace : List Event} (h : ∀ c, Event.exit c ∉ trace) :
    exitStatus trace = 0 := by
  unfold exitStatus
  cases hl : trace.getLast? with
  | none => rfl
  | some e =>
    have hm := List.mem_of_getLast?_eq_some hl
    cases e with
    | exit c => exact absurd hm (h c)
    | _ => rfl

/-- The loop when no target meets a fatal error: the bodies, one per target, and
then the deferred `Close` calls, the latest response first. -/
theorem mainLoop_of_delivers {w : World} {vargs : Webhook} {buf : Buffer} (urls : List String)
    (h : ∀ k raw, urls[k]? = some raw → Delivers w vargs buf k raw) :
    mainLoop w vargs buf 0 urls [] =
      iterations w vargs buf 0 urls ++ (List.range urls.length).reverse.map Event.close := by
  have h0 : ∀ k raw, urls[k]? = some raw → Delivers w vargs buf (0 + k) raw := by
    intro k raw hk
    rw [Nat.zero_add]
    exact h k raw hk
  have := mainLoop_append w vargs buf urls [] 0 [] h0
  rw [List.append_nil] at this
  rw [this, mainLoop, List.append_nil, List.range_eq_range']

/-- A record printed in the loop bodies is the record of some target: it carries
the 1-based position of the target and the parsed form of its URL. -/
theorem record_mem_iterations {w : World} {vargs : Webhook} {buf : Buffer} {urls : List String}
    {o : Output} {n : Nat} (h : Event.printf o ∈ iterations w vargs buf 0 urls)
    (hn : o.index = some n) :
    1 ≤ n ∧ ∃ raw uri, urls[n - 1]? = some raw ∧ w.urlParse raw = .ok uri ∧
      o.url = some uri := by
  obtain ⟨k, raw, hk, hm⟩ := mem_iterations urls 0 h
  rw [Nat.zero_add] at hm
  have hnk := iteration_record_index hm hn
  subst hnk
  refine ⟨by omega, raw, ?_⟩
  rcases mem_iteration hm with h | ⟨_, _, h⟩ | h | ⟨_, _, h⟩ | h | ⟨_, _, _, _, h⟩ |
    ⟨uri, req0, resp, h1, h2, _, h⟩ | ⟨_, _, _, h⟩ | ⟨_, h⟩
  · cases h
  · cases h
  · cases h
  · cases h
  · cases (mem_authEvents h).2
  · cases h
  · rcases mem_report h with h | ⟨_, _, h⟩ | h
    · cases h
    · simp only [Event.printf.injEq] at h
      rw [h] at hn; cases hn
    · simp only [Event.printf.injEq] at h
      refine ⟨uri, by simpa using hk, h1, ?_⟩
      rw [h]
      have hurl : (setAuth vargs (setHeaders vargs req0)).URL = uri := by
        rw [(setAuth_fields _ _).2.1, (setHeaders_fields _ _).2.1, NewRequest_ok h2]
      unfold record
      split <;> simp [Output.url, hurl]
  · simp only [Event.printf.injEq] at h
    rw [h] at hn; cases hn
  · cases h

/-! ## C8: the response status never ends the run -/

/-- C8 (the response status never ends the run).  For the loop of lines 77-134,
run on any payload and any list of targets none of which meets a URL parse,
request construction or transport error, whatever the status codes of the
responses: the requests executed are one per target, the request of loop index
`k` going to the parsed URL of the target at position `k` of the list, in list
order (repeated URLs included); `os.Exit` is never called and the exit status
is 0; and every record printed carries the 1-based position of a target and
the parsed URL of that target. -/
theorem status_never_aborts (w : World) (vargs : Webhook) (buf : Buffer) (urls : List String)
    (h : ∀ k raw, urls[k]? = some raw → Delivers w vargs buf k raw) :
    (requestsExecuted (mainLoop w vargs buf 0 urls [])).map Prod.fst = List.range urls.length ∧
    List.Forall₂ (fun raw e => w.urlParse raw = .ok e.2.URL ∧ ∃ resp, w.clientDo e.1 e.2 = .ok resp)
      urls (requestsExecuted (mainLoop w vargs buf 0 urls [])) ∧
    (∀ c, Event.exit c ∉ mainLoop w vargs buf 0 urls []) ∧
    exitStatus (mainLoop w vargs buf 0 urls []) = 0 ∧
    (∀ o n, Event.printf o ∈ mainLoop w vargs buf 0 urls [] → o.index = some n →
      1 ≤ n ∧ ∃ raw uri, urls[n - 1]? = some raw ∧ w.urlParse raw = .ok uri ∧
        o.url = some uri) := by
  have h0 : ∀ k raw, urls[k]? = some raw → Delivers w vargs buf (0 + k) raw := by
    intro k raw hk
    rw [Nat.zero_add]
    exact h k raw hk
  obtain ⟨hr1, hr2⟩ := requestsExecuted_iterations urls 0 h0
  have hex : ∀ c, Event.exit c ∉ mainLoop w vargs buf 0 urls [] := by
    intro c hm
    rw [mainLoop_of_delivers urls h] at hm
    rcases List.mem_append.mp hm with hm | hm
    · exact exit_not_mem_iterations urls 0 h0 c hm
    · obtain ⟨_, _, hk⟩ := List.mem_map.mp hm
      cases hk
  refine ⟨?_, ?_, hex, exitStatus_of_no_exit hex, ?_⟩
  · rw [mainLoop_of_delivers urls h, requestsExecuted_append, requestsExecuted_close,
      List.append_nil, hr1, List.range_eq_range']
  · rw [mainLoop_of_delivers urls h, requestsExecuted_append, requestsExecuted_close,
      List.append_nil]
    exact hr2
  · intro o n hm hn
    rw [mainLoop_of_delivers urls h] at hm
    rcases List.mem_append.mp hm with hm | hm
    · exact record_mem_iterations hm hn
    · obtain ⟨_, _, hk⟩ := List.mem_map.mp hm
      cases hk

/-- C8, on the loop of the example run: the first answer is 404 and the second
200, and the two requests are executed in order and the exit status is 0. -/
theorem status_never_aborts_witness :
    (requestsExecuted (mainLoop exampleWorld (setDefaults exampleVargs) ⟨[123, 125, 10], 0⟩ 0
      ["http://a", "http://b"] [])).map Prod.fst = [0, 1] ∧
    exitStatus (mainLoop exampleWorld (setDefaults exampleVargs) ⟨[123, 125, 10], 0⟩ 0
      ["http://a", "http://b"] []) = 0 :=
  have h := status_never_aborts exampleWorld (setDefaults exampleVargs) ⟨[123, 125, 10], 0⟩
    ["http://a", "http://b"] (delivers_of_enum (by decide))
  ⟨h.1, h.2.2.2.1⟩

/-! ## C1: fail-fast in list order -/

theorem iteration_of_parse_error {w : World} {vargs : Webhook} {buf : Buffer} {i : Nat}
    {rawurl err : String} (h : w.urlParse rawurl = .error err) :
    iteration w vargs buf i rawurl =
      ([.urlParse i rawurl, .printf (.fatal "Error parsing hook url." err), .exit 1], false) := by
  unfold iteration
  simp only [h]

theorem mainLoop_of_parse_error {w : World} {vargs : Webhook} {buf : Buffer}
    {pre post : List String} {bad err : String}
    (hpre : ∀ k raw, pre[k]? = some raw → Delivers w vargs buf k raw)
    (hbad : w.urlParse bad = .error err) :
    mainLoop w vargs buf 0 (pre ++ bad :: post) [] =
      iterations w vargs buf 0 pre ++
        [.urlParse pre.length bad, .printf (.fatal "Error parsing hook url." err), .exit 1] := by
  have h0 : ∀ k raw, pre[k]? = some raw → Delivers w vargs buf (0 + k) raw := by
    intro k raw hk
    rw [Nat.zero_add]
    exact hpre k raw hk
  rw [mainLoop_append w vargs buf pre (bad :: post) 0 [] h0, Nat.zero_add,
    mainLoop_cons_false _ _ (by rw [iteration_of_parse_error hbad]),
    iteration_of_parse_error hbad]

/-- C1 (fail-fast in list order), as amended.  For the loop of lines 77-134, run
on any payload and any list of targets in which the target after `pre` is the
first whose URL fails to parse: when no target of `pre` meets a request
construction or transport error, the requests executed are exactly those of
the targets of `pre`, one each and in list order, each going to the parsed URL
of its target; the run then prints the parse error and ends with exit status
1; and no call is made for a later target: the only call at or beyond the
position of the failing target is the `url.Parse` that fails, so no request is
built or executed for it or for any target after it. -/
theorem fail_fast_on_unparsable (w : World) (vargs : Webhook) (buf : Buffer)
    (pre post : List String) (bad err : String)
    (hpre : ∀ k raw, pre[k]? = some raw → Delivers w vargs buf k raw)
    (hbad : w.urlParse bad = .error err) :
    (requestsExecuted (mainLoop w vargs buf 0 (pre ++ bad :: post) [])).map Prod.fst =
      List.range pre.length ∧
    List.Forall₂ (fun raw e => w.urlParse raw = .ok e.2.URL ∧ ∃ resp, w.clientDo e.1 e.2 = .ok resp)
      pre (requestsExecuted (mainLoop w vargs buf 0 (pre ++ bad :: post) [])) ∧
    Event.printf (.fatal "Error parsing hook url." err) ∈
      mainLoop w vargs buf 0 (pre ++ bad :: post) [] ∧
    exitStatus (mainLoop w vargs buf 0 (pre ++ bad :: post) []) = 1 ∧
    (∀ e ∈ mainLoop w vargs buf 0 (pre ++ bad :: post) [], ∀ k, e.index = some k →
      k < pre.length ∨ e = .urlParse pre.length bad) := by
  have h0 : ∀ k raw, pre[k]? = some raw → Delivers w vargs buf (0 + k) raw := by
    intro k raw hk
    rw [Nat.zero_add]
    exact hpre k raw hk
  obtain ⟨hr1, hr2⟩ := requestsExecuted_iterations pre 0 h0
  rw [mainLoop_of_parse_error hpre hbad]
  refine ⟨?_, ?_, ?_, ?_, ?_⟩
  · rw [requestsExecuted_append, List.map_append, hr1, List.range_eq_range']
    simp [requestsExecuted]
  · rw [requestsExecuted_append]
    simpa [requestsExecuted] using hr2
  · simp
  · simp [exitStatus]
  · intro e he k hk
    rcases List.mem_append.mp he with he | he
    · left
      obtain ⟨j, raw, hj, hm⟩ := mem_iterations pre 0 he
      have hlt : j < pre.length := by
        by_contra hge
        rw [List.getElem?_eq_none (by omega)] at hj
        cases hj
      rcases iteration_index hm with h | ⟨o, h⟩ | h
      · rw [h] at hk
        simp only [Option.some.injEq] at hk
        omega
      · rw [h] at hk; cases hk
      · rw [h] at hk; cases hk
    · simp only [List.mem_cons, List.mem_singleton, List.not_mem_nil, or_false] at he
      rcases he with he | he | he
      · exact Or.inr he
      · rw [he] at hk; cases hk
      · rw [he] at hk; cases hk

/-- C1, on the loop of the example run with a third, unparsable target: the
requests of the first two targets are executed, and the run ends with exit
status 1. -/
theorem fail_fast_on_unparsable_witness :
    (requestsExecuted (mainLoop exampleWorld (setDefaults exampleVargs) ⟨[123, 125, 10], 0⟩ 0
      (["http://a", "http://b"] ++ ":bad" :: ["http://c"]) [])).map Prod.fst = [0, 1] ∧
    exitStatus (mainLoop exampleWorld (setDefaults exampleVargs) ⟨[123, 125, 10], 0⟩ 0
      (["http://a", "http://b"] ++ ":bad" :: ["http://c"]) []) = 1 :=
  have h := fail_fast_on_unparsable exampleWorld (setDefaults exampleVargs) ⟨[123, 125, 10], 0⟩
    ["http://a", "http://b"] ["http://c"] ":bad" "missing protocol scheme"
    (delivers_of_enum (by decide)) rfl
  ⟨h.1, h.2.2.2.1⟩

/-- C1 as stated fails: the third target is the first whose URL fails to parse,
but the connection to the first target is refused, and the run ends there with
exit status 1: the request of the second target is never executed (and the
unparsable URL is never reached). -/
theorem fail_fast_counterexample :
    refusedWorld.urlParse "http://a" = .ok "http://a" ∧
    refusedWorld.urlParse "http://b" = .ok "http://b" ∧
    refusedWorld.urlParse ":bad" = .error "missing protocol scheme" ∧
    badLastParams.vargs.Urls = ["http://a", "http://b", ":bad"] ∧
    (requestsExecuted (main refusedWorld (.ok badLastParams))).map Prod.fst = [0] ∧
    (requestsExecuted (main refusedWorld (.ok badLastParams))).map Prod.fst ≠ List.range 2 ∧
    exitStatus (main refusedWorld (.ok badLastParams)) = 1 :=
  ⟨rfl, rfl, rfl, rfl, by decide, by decide, by decide⟩

/-! ## C10: when responses are released -/

theorem iterations_append (w : World) (vargs : Webhook) (buf : Buffer) (pre rest : List String) :
    ∀ i, iterations w vargs buf i (pre ++ rest) =
      iterations w vargs buf i pre ++ iterations w vargs buf (i + pre.length) rest := by
  induction pre with
  | nil => intro i; simp [iterations]
  | cons raw pre ih =>
    intro i
    rw [List.cons_append, iterations, iterations, ih (i + 1), List.append_assoc,
      List.length_cons, show i + 1 + pre.length = i + (pre.length + 1) by omega]

theorem iteration_head (w : World) (vargs : Webhook) (buf : Buffer) (i : Nat) (rawurl : String) :
    ∃ tail, (iteration w vargs buf i rawurl).1 = Event.urlParse i rawurl :: tail := by
  rcases iteration_cases w vargs buf i rawurl with ⟨_, _, hit⟩ | ⟨_, _, _, _, hit⟩ |
    ⟨_, _, _, _, _, _, hit⟩ | ⟨_, _, _, _, _, _, hit⟩ <;> rw [hit] <;> exact ⟨_, rfl⟩

theorem mem_requestsExecuted {trace : List Event} {e : Nat × Request} :
    e ∈ requestsExecuted trace ↔ Event.clientDo e.1 e.2 ∈ trace := by
  unfold requestsExecuted
  rw [List.mem_filterMap]
  constructor
  · rintro ⟨ev, hev, h⟩
    cases ev with
    | clientDo i req =>
      simp only [Option.some.injEq] at h
      subst h
      exact hev
    | _ => cases h
  · intro h
    exact ⟨_, h, rfl⟩

theorem answered_of_mem_iterations {w : World} {vargs : Webhook} {buf : Buffer}
    (urls : List String) (i : Nat)
    (h : ∀ k raw, urls[k]? = some raw → Delivers w vargs buf (i + k) raw)
    {e : Nat × Request} (he : e ∈ requestsExecuted (iterations w vargs buf i urls)) :
    ∃ resp, w.clientDo e.1 e.2 = .ok resp := by
  obtain ⟨k, raw, hk, hm⟩ := mem_iterations urls i (mem_requestsExecuted.mp he)
  obtain ⟨uri, req0, resp, h1, h2, h3⟩ := h k raw hk
  rcases mem_iteration hm with h | ⟨_, _, h⟩ | h | ⟨_, _, h⟩ | h | ⟨uri1, req1, h11, h21, h⟩ |
    ⟨_, _, _, _, _, _, h⟩ | ⟨_, _, _, h⟩ | ⟨_, h⟩
  · cases h
  · cases h
  · cases h
  · cases h
  · cases (mem_authEvents h).2
  · simp only [Event.clientDo.injEq] at h
    rw [h11] at h1
    simp only [Except.ok.injEq] at h1
    subst h1
    rw [h21] at h2
    simp only [Except.ok.injEq] at h2
    subst h2
    rw [h.1, h.2]
    exact ⟨resp, h3⟩
  · rcases mem_report h with h | ⟨_, _, h⟩ | h <;> cases h
  · cases h
  · cases h

/-- The responses open after the bodies of targets that met no fatal error: all
of them. -/
theorem openResponses_iterations {w : World} {vargs : Webhook} {buf : Buffer}
    (urls : List String)
    (h : ∀ k raw, urls[k]? = some raw → Delivers w vargs buf (0 + k) raw) :
    openResponses w (iterations w vargs buf 0 urls) = List.range urls.length := by
  unfold openResponses
  rw [List.range_eq_range', ← (requestsExecuted_iterations urls 0 h).1, ← List.filterMap_eq_map]
  apply List.filterMap_congr
  intro e he
  obtain ⟨resp, hresp⟩ := answered_of_mem_iterations urls 0 h he
  simp only [hresp, close_not_mem_iterations, if_false, Function.comp_apply]

theorem beforeTarget_iterations (w : World) (vargs : Webhook) (buf : Buffer)
    (pre rest : List String) (raw : String) (tail : List Event) :
    beforeTarget pre.length
        (iterations w vargs buf 0 (pre ++ raw :: rest) ++ tail) =
      iterations w vargs buf 0 pre := by
  obtain ⟨t, ht⟩ := iteration_head w vargs buf pre.length raw
  unfold beforeTarget
  rw [iterations_append, iterations, Nat.zero_add, ht, List.append_assoc,
    List.takeWhile_append_of_pos, List.cons_append, List.cons_append,
    List.takeWhile_cons_of_neg (by simp), List.append_nil]
  intro e he
  obtain ⟨j, r, hj, hm⟩ := mem_iterations pre 0 he
  have hlt : j < pre.length := by
    by_contra hge
    rw [List.getElem?_eq_none (by omega)] at hj
    cases hj
  rcases iteration_index hm with h | ⟨o, h⟩ | h
  · cases e with
    | urlParse i1 r1 =>
      simp only [Event.index, Option.some.injEq] at h
      simp only [bne_iff_ne, ne_eq]
      omega
    | _ => rfl
  · rw [h]
  · rw [h]

/-- C10 (release of the responses), as amended.  For the loop of lines 77-134,
run on any payload and any list of targets none of which meets a fatal error:
the trace is the loop bodies, one per target, followed by the `Close` calls of
all the responses, once each, the latest response first; no `Close` call is
made inside the loop bodies, in which all the requests are executed; so the
responses are released when `main` returns after the last target, and when
processing of the target at position `k` starts, the responses of all the
`k` targets before it are still open. -/
theorem release_at_return (w : World) (vargs : Webhook) (buf : Buffer) (urls : List String)
    (h : ∀ k raw, urls[k]? = some raw → Delivers w vargs buf k raw) :
    mainLoop w vargs buf 0 urls [] =
      iterations w vargs buf 0 urls ++ (List.range urls.length).reverse.map Event.close ∧
    (∀ k, Event.close k ∉ iterations w vargs buf 0 urls) ∧
    (requestsExecuted (iterations w vargs buf 0 urls)).map Prod.fst = List.range urls.length ∧
    (∀ k, k < urls.length →
      openResponses w (beforeTarget k (mainLoop w vargs buf 0 urls [])) = List.range k) := by
  have h0 : ∀ k raw, urls[k]? = some raw → Delivers w vargs buf (0 + k) raw := by
    intro k raw hk
    rw [Nat.zero_add]
    exact h k raw hk
  refine ⟨mainLoop_of_delivers urls h, close_not_mem_iterations urls 0, ?_, ?_⟩
  · rw [(requestsExecuted_iterations urls 0 h0).1, List.range_eq_range']
  · intro k hk
    rw [mainLoop_of_delivers urls h]
    have hsplit : urls = urls.take k ++ urls[k] :: urls.drop (k + 1) := by
      rw [List.getElem_cons_drop _ _ hk, List.take_append_drop]
    have hlen : (urls.take k).length = k := by
      rw [List.length_take]; omega
    have hpre : ∀ j raw, (urls.take k)[j]? = some raw → Delivers w vargs buf (0 + j) raw := by
      intro j raw hj
      have hjk : j < k := by
        by_contra hge
        rw [List.getElem?_eq_none (by omega)] at hj
        cases hj
      rw [List.getElem?_take_of_lt hjk] at hj
      exact h0 j raw hj
    have hb := beforeTarget_iterations w vargs buf (urls.take k)
      (urls.drop (k + 1)) urls[k] ((List.range urls.length).reverse.map Event.close)
    rw [← hsplit, hlen] at hb
    rw [hb, openResponses_iterations _ hpre, hlen]

/-- C10, on the loop of the example run: the two `Close` calls come last, the
second response first, and when the second target starts the first response
is open. -/
theorem release_at_return_witness :
    mainLoop exampleWorld (setDefaults exampleVargs) ⟨[123, 125, 10], 0⟩ 0
        ["http://a", "http://b"] [] =
      iterations exampleWorld (setDefaults exampleVargs) ⟨[123, 125, 10], 0⟩ 0
        ["http://a", "http://b"] ++ [Event.close 1, Event.close 0] ∧
    openResponses exampleWorld (beforeTarget 1
      (mainLoop exampleWorld (setDefaults exampleVargs) ⟨[123, 125, 10], 0⟩ 0
        ["http://a", "http://b"] [])) = [0] :=
  have h := release_at_return exampleWorld (setDefaults exampleVargs) ⟨[123, 125, 10], 0⟩
    ["http://a", "http://b"] (delivers_of_enum (by decide))
  ⟨h.1, h.2.2.2 1 (by decide)⟩

/-- C10 as stated fails: in the example run, when processing of the second
target starts, the response of the first target has not been closed; and in
the run whose second target does not parse, the process exits with status 1
and the response of the first target is never closed. -/
theorem release_counterexample :
    openResponses exampleWorld (beforeTarget 1 (main exampleWorld (.ok exampleParams))) = [0] ∧
    Event.urlParse 1 "http://b" ∈ main exampleWorld (.ok exampleParams) ∧
    exitStatus (main exampleWorld (.ok badSecondParams)) = 1 ∧
    openResponses exampleWorld (main exampleWorld (.ok badSecondParams)) = [0] := by
  decide

end DroneWebhook
